import Mathlib

/-!
Shallow embedding of the grid-CSP backtracking solvers of this repository.

The four Python scripts are embedded one namespace each:
* `Solve`  — `solve_grid.py`   (5×5, center (2,2)=13, constraints C1/C2/C3, find-one)
* `Solve4` — `4_solve_grid.py` (5×5, constraints C1/C2/C3/C4, find-one)
* `Solve5` — `5_solve_grid.py` (6×6, fixed (0,0)=1, constraints C1/C5, find-one)
* `Solve6` — `6_solve_grid.py` (5×5, constraint C1 only, count-all, forward checking)

A grid `List [List [int]]` of the Python code is embedded as a flat row-major
`List Nat` (`grid[row][col]` becomes `g.getD (row*SIZE+col) 0`); a Python `set`
becomes a `Finset Nat`.  The in-place mutation of the grid and the used-value
set is embedded by explicit state passing: each solver returns its result
together with the final grid and used set, and every mutation of the Python
code (`grid[row][col] = value`, `used.add`, `grid[row][col] = 0`,
`used.remove`) appears as the corresponding pure update on the threaded state.
The recursion of the Python solvers is embedded with an explicit fuel
parameter consumed once per recursive call (fuel 0 returns the negative
result with the state unchanged); fuel `26` is enough for a whole 5×5 solve
and fuel `37` for a 6×6 solve, which is proved as a fuel-stability theorem.
-/

namespace GridAux

/-- Writing `0` at a position that already holds `0` (or is out of range) is the identity. -/
theorem set_zero_of_getD (l : List Nat) (i : Nat) (h : l.getD i 0 = 0) :
    l.set i 0 = l := by
  induction l generalizing i with
  | nil => rfl
  | cons x xs ih =>
    cases i with
    | zero => simp_all [List.getD]
    | succ j =>
      simp only [List.set]
      rw [ih j]
      simpa [List.getD] using h

theorem getD_set_eq (l : List Nat) (i v : Nat) (h : i < l.length) :
    (l.set i v).getD i 0 = v := by
  induction l generalizing i with
  | nil => simp at h
  | cons x xs ih =>
    cases i with
    | zero => rfl
    | succ j =>
      simp only [List.set]
      exact ih j (by simpa using h)

theorem getD_set_ne (l : List Nat) {i j : Nat} (v : Nat) (h : i ≠ j) :
    (l.set i v).getD j 0 = l.getD j 0 := by
  induction l generalizing i j with
  | nil => rfl
  | cons x xs ih =>
    cases i with
    | zero =>
      cases j with
      | zero => exact absurd rfl h
      | succ j' => rfl
    | succ i' =>
      cases j with
      | zero => rfl
      | succ j' =>
        simp only [List.set, List.getD, List.get?]
        exact ih (i := i') (j := j') (by omega)

theorem getD_eq_zero_of_le (l : List Nat) {i : Nat} (h : l.length ≤ i) :
    l.getD i 0 = 0 := by
  simp [List.getD, List.getElem?_eq_none h]

end GridAux

namespace Solve

/-- Embedding of `SIZE = 5` of `solve_grid.py`. -/
def SIZE : Nat := 5

/-- Embedding of `TOTAL_CELLS = SIZE * SIZE` of `solve_grid.py`. -/
def TOTAL_CELLS : Nat := SIZE * SIZE

/-- Embedding of `PRIME_POSITIONS` of `solve_grid.py` (0-indexed). -/
def PRIME_POSITIONS : List (Nat × Nat) :=
  [(0,1),(0,3),(1,0),(1,2),(2,1),(2,3),(3,0),(3,2),(4,1),(4,3)]

/-- The bounds test `0 <= nr < SIZE and 0 <= nc < SIZE` of the neighbor builders. -/
def inBounds (r c : Int) : Bool :=
  0 ≤ r && r < 5 && 0 ≤ c && c < 5

/-- Embedding of `get_orthogonal_neighbors` of `solve_grid.py`: in-range cells among
up, down, left, right, in that order. -/
def get_orthogonal_neighbors (row col : Int) : List (Int × Int) :=
  ([(-1,0),(1,0),(0,-1),(0,1)] : List (Int × Int)).filterMap fun d =>
    if inBounds (row + d.1) (col + d.2) then some (row + d.1, col + d.2) else none

/-- Embedding of `get_diagonal_neighbors` of `solve_grid.py`: in-range cells among the
four corners, in source order. -/
def get_diagonal_neighbors (row col : Int) : List (Int × Int) :=
  ([(-1,-1),(-1,1),(1,-1),(1,1)] : List (Int × Int)).filterMap fun d =>
    if inBounds (row + d.1) (col + d.2) then some (row + d.1, col + d.2) else none

/-- Access `grid[row][col]` of the flattened row-major grid. -/
def cell (g : List Nat) (row col : Nat) : Nat :=
  g.getD (row * 5 + col) 0

/-- Embedding of `violates_c1` of `solve_grid.py`: some filled orthogonal neighbor differs
from `value` by exactly 1. -/
def violates_c1 (g : List Nat) (row col value : Nat) : Bool :=
  (get_orthogonal_neighbors row col).any fun nb =>
    let nv := cell g nb.1.toNat nb.2.toNat
    nv != 0 && ((nv : Int) - (value : Int)).natAbs == 1

/-- Embedding of `violates_c2` of `solve_grid.py`: some filled diagonal neighbor differs
from `value` by exactly 2. -/
def violates_c2 (g : List Nat) (row col value : Nat) : Bool :=
  (get_diagonal_neighbors row col).any fun nb =>
    let nv := cell g nb.1.toNat nb.2.toNat
    nv != 0 && ((nv : Int) - (value : Int)).natAbs == 2

/-- Embedding of `check_c3` of `solve_grid.py`: true when some prime position is still 0,
otherwise true exactly when the prime-position sum is even. -/
def check_c3 (g : List Nat) : Bool :=
  if PRIME_POSITIONS.any (fun rc => cell g rc.1 rc.2 == 0) then true
  else (PRIME_POSITIONS.foldl (fun s rc => s + cell g rc.1 rc.2) 0) % 2 == 0

/-- Embedding of `is_valid_placement` of `solve_grid.py`. -/
def is_valid_placement (g : List Nat) (row col value : Nat) : Bool :=
  if violates_c1 g row col value then false
  else if violates_c2 g row col value then false
  else true

/-- Embedding of `get_next_position` of `solve_grid.py`: row-major successor. -/
def get_next_position (row col : Nat) : Nat × Nat :=
  if col < SIZE - 1 then (row, col + 1) else (row + 1, 0)

/-- Embedding of `grid[row][col] = v` on the flattened grid. -/
def place (g : List Nat) (row col v : Nat) : List Nat :=
  g.set (row * 5 + col) v

/-- The guard `all(grid[r][c] != 0 for r, c in PRIME_POSITIONS)` of the early
C3 check in `solve_grid`. -/
def primes_filled (g : List Nat) : Bool :=
  PRIME_POSITIONS.all fun rc => cell g rc.1 rc.2 != 0

/-- The `for value in range(1, TOTAL_CELLS + 1)` loop body of `solve_grid` in
`solve_grid.py`, with the recursive call abstracted as `recur` (it is
instantiated with `solve_grid` at the next row-major position).  The threaded
pair (grid, used set) embeds the in-place mutation of the Python code:
placement is `place`/`insert`, the backtracking undo is `place … 0`/`erase`,
and a `return True` propagates the state the recursive call left behind. -/
def tryValues (recur : List Nat → Finset Nat → Bool × List Nat × Finset Nat)
    (row col : Nat) :
    List Nat → List Nat → Finset Nat → Bool × List Nat × Finset Nat
  | [], g, u => (false, g, u)
  | v :: rest, g, u =>
    if v ∈ u then tryValues recur row col rest g u
    else if ¬ is_valid_placement g row col v then tryValues recur row col rest g u
    else
      let g1 := place g row col v
      let u1 := insert v u
      if primes_filled g1 ∧ ¬ check_c3 g1 then
        tryValues recur row col rest (place g1 row col 0) (u1.erase v)
      else
        let r := recur g1 u1
        if r.1 then r
        else tryValues recur row col rest (place r.2.1 row col 0) (r.2.2.erase v)

/-- Embedding of `solve_grid` of `solve_grid.py`.  Base case at `row >= SIZE` evaluates
`check_c3`; the fixed center cell (2,2) is skipped; otherwise the value loop
`tryValues` runs at the current cell.  `fuel` bounds the recursion depth
(one unit per recursive call); `fuel = 0` reports failure with the state
unchanged. -/
def solve_grid : Nat → List Nat → Finset Nat → Nat → Nat →
    Bool × List Nat × Finset Nat
  | 0, g, u, _, _ => (false, g, u)
  | fuel + 1, g, u, row, col =>
    if SIZE ≤ row then (check_c3 g, g, u)
    else if row = 2 ∧ col = 2 then
      solve_grid fuel g u (get_next_position row col).1 (get_next_position row col).2
    else
      tryValues
        (fun g2 u2 =>
          solve_grid fuel g2 u2 (get_next_position row col).1 (get_next_position row col).2)
        row col (List.range' 1 TOTAL_CELLS) g u

/-- The initial grid of `main` in `solve_grid.py`: all zeros with the center
cell (2,2) (linear index 12) set to 13. -/
def initGrid : List Nat := (List.replicate 25 0).set 12 13

/-- The initial used set of `main` in `solve_grid.py`. -/
def initUsed : Finset Nat := {13}

/-- The process exit status computed by `main` of `solve_grid.py`:
0 when `solve_grid` finds a solution, 1 otherwise. -/
def mainExit (fuel : Nat) : Nat :=
  if (solve_grid fuel initGrid initUsed 0 0).1 then 0 else 1

/-- Number of legal remaining values at an unassigned cell: values of 1..25
not yet used whose placement passes `is_valid_placement` (the checks the
solver applies when branching at that cell). -/
def legalCount (g : List Nat) (u : Finset Nat) (row col : Nat) : Nat :=
  ((List.range' 1 TOTAL_CELLS).filter fun v =>
    decide (v ∉ u) && is_valid_placement g row col v).length

/-- All cells at linear index ≥ `idx` other than the fixed center are still
unassigned (this holds for every state the search reaches from `main`). -/
def EmptyFrom (g : List Nat) (idx : Nat) : Prop :=
  g.length = 25 ∧ ∀ q < 25, idx ≤ q → q ≠ 12 → g.getD q 0 = 0

instance (g : List Nat) (idx : Nat) : Decidable (EmptyFrom g idx) := by
  unfold EmptyFrom; infer_instance

theorem EmptyFrom.getD_zero1 {g : List Nat} {idx q : Nat} (h : EmptyFrom g idx)
    (h1 : idx ≤ q) (h2 : q ≠ 12) : g.getD q 0 = 0 := by
  by_cases hq : q < 25
  · exact h.2 q hq h1 h2
  · exact GridAux.getD_eq_zero_of_le g (by rw [h.1]; omega)

theorem EmptyFrom.mono1 {g : List Nat} {idx idx' : Nat} (h : EmptyFrom g idx)
    (hle : idx ≤ idx') : EmptyFrom g idx' :=
  ⟨h.1, fun q hq h1 h2 => h.2 q hq (le_trans hle h1) h2⟩

theorem EmptyFrom.place1 {g : List Nat} {row col : Nat} (h : EmptyFrom g (row * 5 + col))
    (v : Nat) : EmptyFrom (place g row col v) (row * 5 + col + 1) := by
  refine ⟨by simpa [Solve.place] using h.1, fun q hq h1 h2 => ?_⟩
  rw [Solve.place, GridAux.getD_set_ne _ _ (by omega)]
  exact h.2 q hq (by omega) h2

theorem next_idx1 (row col : Nat) (h : col < 5) :
    (get_next_position row col).1 * 5 + (get_next_position row col).2 = row * 5 + col + 1 ∧
      (get_next_position row col).2 < 5 := by
  simp only [get_next_position, SIZE]
  split <;> constructor <;> omega

theorem place_undo1 (g : List Nat) (row col v : Nat) (h : g.getD (row * 5 + col) 0 = 0) :
    place (place g row col v) row col 0 = g := by
  unfold place
  rw [List.set_set]
  exact GridAux.set_zero_of_getD g _ h

/-- Every failing pass through the value loop of `solve_grid` restores the
grid and used set it was entered with, provided the recursive call does. -/
theorem tryValues_restore1 (recur : List Nat → Finset Nat → Bool × List Nat × Finset Nat)
    (row col : Nat) (hc : row * 5 + col ≠ 12)
    (hrec : ∀ g' u', EmptyFrom g' (row * 5 + col + 1) →
      (recur g' u').1 = false → (recur g' u').2 = (g', u')) :
    ∀ vals g u, EmptyFrom g (row * 5 + col) →
      (tryValues recur row col vals g u).1 = false →
      (tryValues recur row col vals g u).2 = (g, u) := by
  intro vals
  induction vals with
  | nil => intro g u _ _; rfl
  | cons v rest ih =>
    intro g u he hf
    have hcell : g.getD (row * 5 + col) 0 = 0 := he.getD_zero1 le_rfl hc
    by_cases hv : v ∈ u
    · rw [tryValues, if_pos hv] at hf ⊢; exact ih g u he hf
    · by_cases hvp : ¬ is_valid_placement g row col v
      · rw [tryValues, if_neg hv, if_pos hvp] at hf ⊢; exact ih g u he hf
      · have hundo : place (place g row col v) row col 0 = g := place_undo1 g row col v hcell
        have herase : (insert v u).erase v = u := Finset.erase_insert hv
        by_cases hpf : primes_filled (place g row col v) ∧ ¬ check_c3 (place g row col v)
        · rw [tryValues, if_neg hv, if_neg hvp] at hf ⊢
          simp only [if_pos hpf] at hf ⊢
          rw [hundo, herase] at hf ⊢
          exact ih g u he hf
        · rw [tryValues, if_neg hv, if_neg hvp] at hf ⊢
          simp only [if_neg hpf] at hf ⊢
          by_cases hr : (recur (place g row col v) (insert v u)).1 = true
          · rw [if_pos hr] at hf; exact absurd hf (by simp [hr])
          · have hr' : (recur (place g row col v) (insert v u)).1 = false := by
              simpa using hr
            have hrest := hrec (place g row col v) (insert v u) (he.place1 v) hr'
            rw [if_neg hr] at hf ⊢
            rw [hrest] at hf ⊢
            simp only at hf ⊢
            rw [hundo, herase] at hf ⊢
            exact ih g u he hf

/-- When `solve_grid` reports failure it restores the grid and used set it
was called with. -/
theorem solve_grid_restore1 : ∀ fuel row col g u, col < 5 →
    EmptyFrom g (row * 5 + col) →
    (solve_grid fuel g u row col).1 = false →
    (solve_grid fuel g u row col).2 = (g, u) := by
  intro fuel
  induction fuel with
  | zero => intros; rfl
  | succ n ih =>
    intro row col g u hcol he hf
    by_cases hb : SIZE ≤ row
    · rw [solve_grid, if_pos hb] at hf ⊢
    · have hrow : row < 5 := by simpa [SIZE] using hb
      obtain ⟨hnidx, hncol⟩ := next_idx1 row col hcol
      by_cases hcen : row = 2 ∧ col = 2
      · rw [solve_grid, if_neg hb, if_pos hcen] at hf ⊢
        exact ih _ _ g u hncol (by rw [hnidx]; exact he.mono1 (by omega)) hf
      · have hc : row * 5 + col ≠ 12 := by
          intro h12
          exact hcen ⟨by omega, by omega⟩
        rw [solve_grid, if_neg hb, if_neg hcen] at hf ⊢
        exact tryValues_restore1 _ row col hc
          (fun g' u' he' hf' => ih _ _ g' u' hncol (by rw [hnidx]; exact he') hf')
          _ g u he hf

/-- Search-state invariant tying the grid and the used-value set together:
the center holds 13, the used set is exactly the set of values assigned in
the grid, assigned values are pairwise distinct and drawn from 1..25, cells
before the scan position (linear index `idx`) are assigned and cells from it
on (except the center) are unassigned. -/
def Inv (g : List Nat) (u : Finset Nat) (idx : Nat) : Prop :=
  EmptyFrom g idx ∧
  g.getD 12 0 = 13 ∧
  (∀ v ∈ u, 1 ≤ v ∧ v ≤ 25 ∧ ∃ i < 25, g.getD i 0 = v) ∧
  (∀ i < 25, g.getD i 0 ≠ 0 → g.getD i 0 ∈ u ∧ g.getD i 0 ≤ 25) ∧
  (∀ i < 25, ∀ j < 25, i ≠ j → g.getD i 0 ≠ 0 → g.getD i 0 ≠ g.getD j 0) ∧
  (∀ q < idx, g.getD q 0 ≠ 0)

instance (g : List Nat) (u : Finset Nat) (idx : Nat) : Decidable (Inv g u idx) := by
  unfold Inv; infer_instance

/-- A full solution together with a used set matching it: 25 pairwise
distinct values of 1..25, each value hit exactly once, and the used set
equal to the set of assigned values. -/
def Solved (g : List Nat) (u : Finset Nat) : Prop :=
  (∀ i < 25, 1 ≤ g.getD i 0 ∧ g.getD i 0 ≤ 25) ∧
  (∀ i < 25, ∀ j < 25, i ≠ j → g.getD i 0 ≠ g.getD j 0) ∧
  (∀ v, 1 ≤ v → v ≤ 25 → ∃ i < 25, g.getD i 0 = v) ∧
  (∀ v, v ∈ u ↔ ∃ i < 25, g.getD i 0 = v)

theorem Inv.place_inv1 {g : List Nat} {u : Finset Nat} {idx : Nat} (h : Inv g u idx)
    (hidx : idx < 25) (hc : idx ≠ 12) {v : Nat} (hv1 : 1 ≤ v) (hv2 : v ≤ 25)
    (hvu : v ∉ u) : Inv (g.set idx v) (insert v u) (idx + 1) := by
  obtain ⟨he, h12, huv, hgv, hdist, hpre⟩ := h
  have hcell : g.getD idx 0 = 0 := he.getD_zero1 le_rfl hc
  have hlen : idx < g.length := by rw [he.1]; exact hidx
  have hset : (g.set idx v).getD idx 0 = v := GridAux.getD_set_eq g idx v hlen
  have hother : ∀ j, j ≠ idx → (g.set idx v).getD j 0 = g.getD j 0 :=
    fun j hj => GridAux.getD_set_ne g v (fun h => hj h.symm)
  refine ⟨?_, ?_, ?_, ?_, ?_, ?_⟩
  · refine ⟨by simpa using he.1, fun q hq h1 h2 => ?_⟩
    rw [hother q (by omega)]
    exact he.2 q hq (by omega) h2
  · rw [hother 12 (fun h => hc h.symm)]; exact h12
  · intro w hw
    rcases Finset.mem_insert.1 hw with rfl | hw'
    · exact ⟨hv1, hv2, idx, hidx, hset⟩
    · obtain ⟨hw1, hw2, i, hi, hgi⟩ := huv w hw'
      have hine : i ≠ idx := by
        intro h; rw [h, hcell] at hgi; omega
      exact ⟨hw1, hw2, i, hi, by rw [hother i hine]; exact hgi⟩
  · intro i hi hne
    by_cases hieq : i = idx
    · subst hieq
      rw [hset]
      exact ⟨Finset.mem_insert_self v u, hv2⟩
    · rw [hother i hieq] at hne ⊢
      obtain ⟨hmem, hle⟩ := hgv i hi hne
      exact ⟨Finset.mem_insert_of_mem hmem, hle⟩
  · intro i hi j hj hij hne
    by_cases hieq : i = idx
    · have hjeq : j ≠ idx := fun h => hij (hieq.trans h.symm)
      rw [hieq, hset, hother j hjeq]
      intro hcon
      have hjnz : g.getD j 0 ≠ 0 := by rw [← hcon]; omega
      exact hvu (by rw [hcon]; exact (hgv j hj hjnz).1)
    · rw [hother i hieq] at hne ⊢
      by_cases hjeq : j = idx
      · rw [hjeq, hset]
        intro hcon
        exact hvu (by rw [← hcon]; exact (hgv i hi hne).1)
      · rw [hother j hjeq]
        exact hdist i hi j hj hij hne
  · intro q hq
    by_cases hqe : q = idx
    · subst hqe; rw [hset]; omega
    · rw [hother q hqe]
      exact hpre q (by omega)

theorem Inv.center_skip {g : List Nat} {u : Finset Nat} (h : Inv g u 12) : Inv g u 13 := by
  obtain ⟨he, h12, huv, hgv, hdist, hpre⟩ := h
  refine ⟨he.mono1 (by omega), h12, huv, hgv, hdist, fun q hq => ?_⟩
  by_cases hq12 : q = 12
  · rw [hq12, h12]; omega
  · exact hpre q (by omega)

theorem Inv.solved {g : List Nat} {u : Finset Nat} {idx : Nat} (h : Inv g u idx)
    (hidx : 25 ≤ idx) : Solved g u := by
  obtain ⟨he, h12, huv, hgv, hdist, hpre⟩ := h
  have hnz : ∀ i < 25, g.getD i 0 ≠ 0 := fun i hi => hpre i (by omega)
  have hbounds : ∀ i < 25, 1 ≤ g.getD i 0 ∧ g.getD i 0 ≤ 25 := fun i hi =>
    ⟨Nat.one_le_iff_ne_zero.2 (hnz i hi), (hgv i hi (hnz i hi)).2⟩
  have hinj : ∀ i < 25, ∀ j < 25, i ≠ j → g.getD i 0 ≠ g.getD j 0 := fun i hi j hj hij =>
    hdist i hi j hj hij (hnz i hi)
  have hsurj : ∀ v, 1 ≤ v → v ≤ 25 → ∃ i < 25, g.getD i 0 = v := by
    have hinj' : Set.InjOn (fun i => g.getD i 0) (Finset.range 25) := by
      intro a ha b hb hab
      by_contra hne
      exact hinj a (Finset.mem_range.1 (Finset.mem_coe.1 ha))
        b (Finset.mem_range.1 (Finset.mem_coe.1 hb)) hne hab
    have hsub : (Finset.range 25).image (fun i => g.getD i 0) ⊆ Finset.Icc 1 25 := by
      intro x hx
      obtain ⟨i, hi, rfl⟩ := Finset.mem_image.1 hx
      exact Finset.mem_Icc.2 (hbounds i (Finset.mem_range.1 hi))
    have hcard : ((Finset.range 25).image (fun i => g.getD i 0)).card = 25 := by
      rw [Finset.card_image_of_injOn hinj', Finset.card_range]
    have heq : (Finset.range 25).image (fun i => g.getD i 0) = Finset.Icc 1 25 :=
      Finset.eq_of_subset_of_card_le hsub (by rw [hcard, Nat.card_Icc])
    intro v hv1 hv2
    have hv : v ∈ Finset.Icc 1 25 := Finset.mem_Icc.2 ⟨hv1, hv2⟩
    rw [← heq] at hv
    obtain ⟨i, hi, hgi⟩ := Finset.mem_image.1 hv
    exact ⟨i, Finset.mem_range.1 hi, hgi⟩
  refine ⟨hbounds, hinj, hsurj, fun v => ⟨fun hv => ?_, fun hv => ?_⟩⟩
  · obtain ⟨_, _, i, hi, hgi⟩ := huv v hv
    exact ⟨i, hi, hgi⟩
  · obtain ⟨i, hi, rfl⟩ := hv
    exact (hgv i hi (hnz i hi)).1

/-- Every successful pass through the value loop of `solve_grid` returns a
solved grid with a matching used set, provided the recursive call does and
the entry state satisfies the search invariant. -/
theorem tryValues_success (recur : List Nat → Finset Nat → Bool × List Nat × Finset Nat)
    (row col : Nat) (hc : row * 5 + col ≠ 12) (hlt : row * 5 + col < 25)
    (hrec : ∀ g' u', Inv g' u' (row * 5 + col + 1) → (recur g' u').1 = true →
      Solved (recur g' u').2.1 (recur g' u').2.2)
    (hrec0 : ∀ g' u', EmptyFrom g' (row * 5 + col + 1) →
      (recur g' u').1 = false → (recur g' u').2 = (g', u')) :
    ∀ vals g u, (∀ v ∈ vals, 1 ≤ v ∧ v ≤ 25) → Inv g u (row * 5 + col) →
      (tryValues recur row col vals g u).1 = true →
      Solved (tryValues recur row col vals g u).2.1
        (tryValues recur row col vals g u).2.2 := by
  intro vals
  induction vals with
  | nil => intro g u _ _ hf; simp [tryValues] at hf
  | cons v rest ih =>
    intro g u hvals hinv hf
    have hvb : 1 ≤ v ∧ v ≤ 25 := hvals v (List.mem_cons_self v rest)
    have hrest : ∀ w ∈ rest, 1 ≤ w ∧ w ≤ 25 := fun w hw => hvals w (List.mem_cons_of_mem v hw)
    have hcell : g.getD (row * 5 + col) 0 = 0 := hinv.1.getD_zero1 le_rfl hc
    by_cases hv : v ∈ u
    · rw [tryValues, if_pos hv] at hf ⊢; exact ih g u hrest hinv hf
    · by_cases hvp : ¬ is_valid_placement g row col v
      · rw [tryValues, if_neg hv, if_pos hvp] at hf ⊢; exact ih g u hrest hinv hf
      · have hundo : place (place g row col v) row col 0 = g := place_undo1 g row col v hcell
        have herase : (insert v u).erase v = u := Finset.erase_insert hv
        have hinv1 : Inv (place g row col v) (insert v u) (row * 5 + col + 1) :=
          hinv.place_inv1 hlt hc hvb.1 hvb.2 hv
        by_cases hpf : primes_filled (place g row col v) ∧ ¬ check_c3 (place g row col v)
        · rw [tryValues, if_neg hv, if_neg hvp] at hf ⊢
          simp only [if_pos hpf] at hf ⊢
          rw [hundo, herase] at hf ⊢
          exact ih g u hrest hinv hf
        · rw [tryValues, if_neg hv, if_neg hvp] at hf ⊢
          simp only [if_neg hpf] at hf ⊢
          by_cases hr : (recur (place g row col v) (insert v u)).1 = true
          · rw [if_pos hr] at hf ⊢
            exact hrec _ _ hinv1 hr
          · have hr' : (recur (place g row col v) (insert v u)).1 = false := by
              simpa using hr
            have hres := hrec0 _ _ hinv1.1 hr'
            rw [if_neg hr] at hf ⊢
            rw [hres] at hf ⊢
            simp only at hf ⊢
            rw [hundo, herase] at hf ⊢
            exact ih g u hrest hinv hf

/-- When `solve_grid` reports success from a state satisfying the search
invariant, the grid it leaves behind is a full assignment of 25 pairwise
distinct values of 1..25, hit exactly once each, with the used set equal to
the set of assigned values. -/
theorem solve_grid_success : ∀ fuel row col g u, col < 5 →
    Inv g u (row * 5 + col) →
    (solve_grid fuel g u row col).1 = true →
    Solved (solve_grid fuel g u row col).2.1 (solve_grid fuel g u row col).2.2 := by
  intro fuel
  induction fuel with
  | zero => intro row col g u _ _ hf; simp [solve_grid] at hf
  | succ n ih =>
    intro row col g u hcol hinv hf
    by_cases hb : SIZE ≤ row
    · rw [solve_grid, if_pos hb] at hf ⊢
      exact hinv.solved (by simp only [SIZE] at hb; omega)
    · have hrow : row < 5 := by simpa [SIZE] using hb
      obtain ⟨hnidx, hncol⟩ := next_idx1 row col hcol
      by_cases hcen : row = 2 ∧ col = 2
      · rw [solve_grid, if_neg hb, if_pos hcen] at hf ⊢
        obtain ⟨hr2, hc2⟩ := hcen
        have h12 : row * 5 + col = 12 := by omega
        refine ih _ _ g u hncol ?_ hf
        rw [hnidx, h12]
        exact (h12 ▸ hinv).center_skip
      · have hc : row * 5 + col ≠ 12 := fun h12 => hcen ⟨by omega, by omega⟩
        rw [solve_grid, if_neg hb, if_neg hcen] at hf ⊢
        refine tryValues_success _ row col hc (by omega) ?_ ?_ _ g u ?_ hinv hf
        · intro g' u' hinv' hf'
          exact ih _ _ g' u' hncol (by rw [hnidx]; exact hinv') hf'
        · intro g' u' he' hf'
          exact solve_grid_restore1 n _ _ g' u' hncol (by rw [hnidx]; exact he') hf'
        · intro w hw
          rw [List.mem_range'_1] at hw
          simp only [TOTAL_CELLS, SIZE] at hw
          omega

theorem tryValues_congr (r1 r2 : List Nat → Finset Nat → Bool × List Nat × Finset Nat)
    (row col : Nat) (h : ∀ g u, r1 g u = r2 g u) :
    ∀ vals g u, tryValues r1 row col vals g u = tryValues r2 row col vals g u := by
  intro vals
  induction vals with
  | nil => intro g u; rfl
  | cons v rest ih =>
    intro g u
    rw [tryValues, tryValues]
    by_cases hv : v ∈ u
    · rw [if_pos hv, if_pos hv]; exact ih g u
    · rw [if_neg hv, if_neg hv]
      by_cases hvp : ¬ is_valid_placement g row col v
      · rw [if_pos hvp, if_pos hvp]; exact ih g u
      · rw [if_neg hvp, if_neg hvp]
        simp only
        by_cases hpf : primes_filled (place g row col v) ∧ ¬ check_c3 (place g row col v)
        · rw [if_pos hpf, if_pos hpf]; exact ih _ _
        · rw [if_neg hpf, if_neg hpf]
          rw [h (place g row col v) (insert v u)]
          by_cases hr : (r2 (place g row col v) (insert v u)).1 = true
          · rw [if_pos hr, if_pos hr]
          · rw [if_neg hr, if_neg hr]; exact ih _ _

/-- One extra unit of fuel does not change the result once the fuel covers
the remaining recursion depth. -/
theorem solve_grid_fuel_succ : ∀ fuel row col g u, col < 5 →
    25 - (row * 5 + col) < fuel →
    solve_grid fuel g u row col = solve_grid (fuel + 1) g u row col := by
  intro fuel
  induction fuel with
  | zero => intro row col g u _ hlt; omega
  | succ n ih =>
    intro row col g u hcol hlt
    by_cases hb : SIZE ≤ row
    · rw [solve_grid, solve_grid, if_pos hb, if_pos hb]
    · have hrow : row < 5 := by simpa [SIZE] using hb
      obtain ⟨hnidx, hncol⟩ := next_idx1 row col hcol
      have hlt' : 25 - ((get_next_position row col).1 * 5 + (get_next_position row col).2) < n := by
        rw [hnidx]; omega
      by_cases hcen : row = 2 ∧ col = 2
      · rw [solve_grid, solve_grid, if_neg hb, if_neg hb, if_pos hcen, if_pos hcen]
        exact ih _ _ g u hncol hlt'
      · rw [solve_grid, solve_grid, if_neg hb, if_neg hb, if_neg hcen, if_neg hcen]
        exact tryValues_congr _ _ row col (fun g' u' => ih _ _ g' u' hncol hlt') _ g u

/-- Fuel stability: any fuel covering the remaining depth gives the same
result (the fuel-indexed embedding has reached its fixed point, i.e. the
Python recursion terminates with this common value). -/
theorem solve_grid_fuel_stable (f1 f2 row col : Nat) (g : List Nat) (u : Finset Nat)
    (hcol : col < 5) (h1 : 25 - (row * 5 + col) < f1) (hle : f1 ≤ f2) :
    solve_grid f1 g u row col = solve_grid f2 g u row col := by
  induction f2, hle using Nat.le_induction with
  | base => rfl
  | succ m hm ih =>
    rw [ih]
    exact solve_grid_fuel_succ m row col g u hcol (by omega)

end Solve

namespace Solve4

/-- Embedding of `check_c4` of `4_solve_grid.py`: `top_row = grid[0]` (the first 5 cells of
the flattened grid); true when some top-row cell is still 0, otherwise true
exactly when `sorted(top_row)[2] == 14`. -/
def check_c4 (g : List Nat) : Bool :=
  let top := g.take 5
  if top.any (fun v => v == 0) then true
  else (List.insertionSort (· ≤ ·) top).getD 2 0 == 14

/-- The k-th order statistic, 1-indexed, of a list: the k-th element of the
sorted list (as named by the specification's definition of the row median). -/
def orderStat (k : Nat) (l : List Nat) : Nat :=
  (List.insertionSort (· ≤ ·) l).getD (k - 1) 0

end Solve4

namespace Solve5

/-- Embedding of `SIZE = 6` of `5_solve_grid.py`. -/
def SIZE : Nat := 6

/-- Embedding of `TOTAL_CELLS = 36` of `5_solve_grid.py`. -/
def TOTAL_CELLS : Nat := SIZE * SIZE

/-- Embedding of `SPECIAL_NUMBERS` of `5_solve_grid.py`. -/
def SPECIAL_NUMBERS : Finset Nat := {1, 12, 24, 36}

/-- The bounds test of `get_orthogonal_neighbors` in `5_solve_grid.py`. -/
def inBounds (r c : Int) : Bool :=
  0 ≤ r && r < 6 && 0 ≤ c && c < 6

/-- Embedding of `get_orthogonal_neighbors` of `5_solve_grid.py` (6×6 bounds). -/
def get_orthogonal_neighbors (row col : Int) : List (Int × Int) :=
  ([(-1,0),(1,0),(0,-1),(0,1)] : List (Int × Int)).filterMap fun d =>
    if inBounds (row + d.1) (col + d.2) then some (row + d.1, col + d.2) else none

/-- Access `grid[row][col]` of the flattened 6-wide grid. -/
def cell (g : List Nat) (row col : Nat) : Nat :=
  g.getD (row * 6 + col) 0

/-- Embedding of `violates_c1` of `5_solve_grid.py`. -/
def violates_c1 (g : List Nat) (row col value : Nat) : Bool :=
  (get_orthogonal_neighbors row col).any fun nb =>
    let nv := cell g nb.1.toNat nb.2.toNat
    nv != 0 && ((nv : Int) - (value : Int)).natAbs == 1

/-- Embedding of `violates_c5` of `5_solve_grid.py`: a special value is rejected when
another special value already sits in the same row or the same column. -/
def violates_c5 (g : List Nat) (row col value : Nat) : Bool :=
  if value ∉ SPECIAL_NUMBERS then false
  else if (List.range 6).any (fun c =>
      decide (c ≠ col) && decide (cell g row c ≠ 0) &&
        decide (cell g row c ∈ SPECIAL_NUMBERS)) then true
  else if (List.range 6).any (fun r =>
      decide (r ≠ row) && decide (cell g r col ≠ 0) &&
        decide (cell g r col ∈ SPECIAL_NUMBERS)) then true
  else false

/-- Embedding of `is_valid_placement` of `5_solve_grid.py`. -/
def is_valid_placement (g : List Nat) (row col value : Nat) : Bool :=
  if violates_c1 g row col value then false
  else if violates_c5 g row col value then false
  else true

/-- Embedding of `get_next_position` of `5_solve_grid.py`. -/
def get_next_position (row col : Nat) : Nat × Nat :=
  if col < SIZE - 1 then (row, col + 1) else (row + 1, 0)

/-- Embedding of `grid[row][col] = v` on the flattened 6-wide grid. -/
def place (g : List Nat) (row col v : Nat) : List Nat :=
  g.set (row * 6 + col) v

/-- The `for value in range(1, TOTAL_CELLS + 1)` loop body of `solve_grid` in
`5_solve_grid.py`, recursion abstracted as `recur`, state threaded as in
`Solve.tryValues`. -/
def tryValues (recur : List Nat → Finset Nat → Bool × List Nat × Finset Nat)
    (row col : Nat) :
    List Nat → List Nat → Finset Nat → Bool × List Nat × Finset Nat
  | [], g, u => (false, g, u)
  | v :: rest, g, u =>
    if v ∈ u then tryValues recur row col rest g u
    else if ¬ is_valid_placement g row col v then tryValues recur row col rest g u
    else
      let r := recur (place g row col v) (insert v u)
      if r.1 then r
      else tryValues recur row col rest (place r.2.1 row col 0) (r.2.2.erase v)

/-- Embedding of `solve_grid` of `5_solve_grid.py`: base case `row >= SIZE` returns True,
the fixed cell (0,0) is skipped, otherwise the value loop runs. -/
def solve_grid : Nat → List Nat → Finset Nat → Nat → Nat →
    Bool × List Nat × Finset Nat
  | 0, g, u, _, _ => (false, g, u)
  | fuel + 1, g, u, row, col =>
    if SIZE ≤ row then (true, g, u)
    else if row = 0 ∧ col = 0 then
      solve_grid fuel g u (get_next_position row col).1 (get_next_position row col).2
    else
      tryValues
        (fun g2 u2 =>
          solve_grid fuel g2 u2 (get_next_position row col).1 (get_next_position row col).2)
        row col (List.range' 1 TOTAL_CELLS) g u

/-- The initial grid of `main` in `5_solve_grid.py`: zeros with cell (0,0)
set to 1. -/
def initGrid : List Nat := (List.replicate 36 0).set 0 1

/-- The initial used set of `main` in `5_solve_grid.py`. -/
def initUsed : Finset Nat := {1}

/-- Cells at linear index ≥ `idx` other than the fixed cell 0 are unassigned. -/
def EmptyFrom (g : List Nat) (idx : Nat) : Prop :=
  g.length = 36 ∧ ∀ q < 36, idx ≤ q → q ≠ 0 → g.getD q 0 = 0

instance (g : List Nat) (idx : Nat) : Decidable (EmptyFrom g idx) := by
  unfold EmptyFrom; infer_instance

theorem EmptyFrom.getD_zero5 {g : List Nat} {idx q : Nat} (h : EmptyFrom g idx)
    (h1 : idx ≤ q) (h2 : q ≠ 0) : g.getD q 0 = 0 := by
  by_cases hq : q < 36
  · exact h.2 q hq h1 h2
  · exact GridAux.getD_eq_zero_of_le g (by rw [h.1]; omega)

theorem EmptyFrom.mono5 {g : List Nat} {idx idx' : Nat} (h : EmptyFrom g idx)
    (hle : idx ≤ idx') : EmptyFrom g idx' :=
  ⟨h.1, fun q hq h1 h2 => h.2 q hq (le_trans hle h1) h2⟩

theorem EmptyFrom.place5 {g : List Nat} {row col : Nat} (h : EmptyFrom g (row * 6 + col))
    (v : Nat) : EmptyFrom (place g row col v) (row * 6 + col + 1) := by
  refine ⟨by simpa [Solve5.place] using h.1, fun q hq h1 h2 => ?_⟩
  rw [Solve5.place, GridAux.getD_set_ne _ _ (by omega)]
  exact h.2 q hq (by omega) h2

theorem next_idx5 (row col : Nat) (h : col < 6) :
    (get_next_position row col).1 * 6 + (get_next_position row col).2 = row * 6 + col + 1 ∧
      (get_next_position row col).2 < 6 := by
  simp only [get_next_position, SIZE]
  split <;> constructor <;> omega

theorem place_undo5 (g : List Nat) (row col v : Nat) (h : g.getD (row * 6 + col) 0 = 0) :
    place (place g row col v) row col 0 = g := by
  unfold place
  rw [List.set_set]
  exact GridAux.set_zero_of_getD g _ h

/-- Every failing pass through the value loop of `5_solve_grid.py` restores
the grid and used set it was entered with. -/
theorem tryValues_restore5 (recur : List Nat → Finset Nat → Bool × List Nat × Finset Nat)
    (row col : Nat) (hc : row * 6 + col ≠ 0)
    (hrec : ∀ g' u', EmptyFrom g' (row * 6 + col + 1) →
      (recur g' u').1 = false → (recur g' u').2 = (g', u')) :
    ∀ vals g u, EmptyFrom g (row * 6 + col) →
      (tryValues recur row col vals g u).1 = false →
      (tryValues recur row col vals g u).2 = (g, u) := by
  intro vals
  induction vals with
  | nil => intro g u _ _; rfl
  | cons v rest ih =>
    intro g u he hf
    have hcell : g.getD (row * 6 + col) 0 = 0 := he.getD_zero5 le_rfl hc
    by_cases hv : v ∈ u
    · rw [tryValues, if_pos hv] at hf ⊢; exact ih g u he hf
    · by_cases hvp : ¬ is_valid_placement g row col v
      · rw [tryValues, if_neg hv, if_pos hvp] at hf ⊢; exact ih g u he hf
      · have hundo : place (place g row col v) row col 0 = g := place_undo5 g row col v hcell
        have herase : (insert v u).erase v = u := Finset.erase_insert hv
        rw [tryValues, if_neg hv, if_neg hvp] at hf ⊢
        simp only at hf ⊢
        by_cases hr : (recur (place g row col v) (insert v u)).1 = true
        · rw [if_pos hr] at hf; exact absurd hf (by simp [hr])
        · have hr' : (recur (place g row col v) (insert v u)).1 = false := by simpa using hr
          have hrest := hrec (place g row col v) (insert v u) (he.place5 v) hr'
          rw [if_neg hr] at hf ⊢
          rw [hrest] at hf ⊢
          simp only at hf ⊢
          rw [hundo, herase] at hf ⊢
          exact ih g u he hf

/-- When the `5_solve_grid.py` solver reports failure it restores the grid
and used set it was called with. -/
theorem solve_grid_restore5 : ∀ fuel row col g u, col < 6 →
    EmptyFrom g (row * 6 + col) →
    (solve_grid fuel g u row col).1 = false →
    (solve_grid fuel g u row col).2 = (g, u) := by
  intro fuel
  induction fuel with
  | zero => intros; rfl
  | succ n ih =>
    intro row col g u hcol he hf
    by_cases hb : SIZE ≤ row
    · rw [solve_grid, if_pos hb] at hf; exact absurd hf (by simp)
    · obtain ⟨hnidx, hncol⟩ := next_idx5 row col hcol
      by_cases hcen : row = 0 ∧ col = 0
      · rw [solve_grid, if_neg hb, if_pos hcen] at hf ⊢
        exact ih _ _ g u hncol (by rw [hnidx]; exact he.mono5 (by omega)) hf
      · have hc : row * 6 + col ≠ 0 := by
          intro h0
          exact hcen ⟨by omega, by omega⟩
        rw [solve_grid, if_neg hb, if_neg hcen] at hf ⊢
        exact tryValues_restore5 _ row col hc
          (fun g' u' he' hf' => ih _ _ g' u' hncol (by rw [hnidx]; exact he') hf')
          _ g u he hf

/-- No two cells holding special values share a row or a column. -/
def rookOK (g : List Nat) : Prop :=
  ∀ p < 36, ∀ q < 36, p ≠ q → g.getD p 0 ∈ SPECIAL_NUMBERS →
    g.getD q 0 ∈ SPECIAL_NUMBERS → p / 6 ≠ q / 6 ∧ p % 6 ≠ q % 6

instance (g : List Nat) : Decidable (rookOK g) :=
  decidable_of_iff (∀ p ∈ Finset.range 36, ∀ q ∈ Finset.range 36,
      p ≠ q → g.getD p 0 ∈ SPECIAL_NUMBERS → g.getD q 0 ∈ SPECIAL_NUMBERS →
        p / 6 ≠ q / 6 ∧ p % 6 ≠ q % 6) (by
    unfold rookOK
    constructor
    · intro h p hp q hq
      exact h p (Finset.mem_range.2 hp) q (Finset.mem_range.2 hq)
    · intro h p hp q hq
      exact h p (Finset.mem_range.1 hp) q (Finset.mem_range.1 hq))

theorem special_ne_zero {x : Nat} (h : x ∈ SPECIAL_NUMBERS) : x ≠ 0 := by
  simp only [SPECIAL_NUMBERS, Finset.mem_insert, Finset.mem_singleton] at h
  omega

theorem valid_imp_not_c5 {g : List Nat} {row col v : Nat}
    (h : is_valid_placement g row col v = true) : violates_c5 g row col v = false := by
  rw [is_valid_placement] at h
  by_cases h1 : violates_c1 g row col v = true
  · rw [if_pos h1] at h; exact absurd h (by simp)
  · rw [if_neg h1] at h
    by_cases h5 : violates_c5 g row col v = true
    · rw [if_pos h5] at h; exact absurd h (by simp)
    · simpa using h5

/-- Placing a value that passes `violates_c5` preserves the rook condition. -/
theorem rookOK_place {g : List Nat} {row col v : Nat} (hrow : row < 6) (hcol : col < 6)
    (hg : rookOK g) (hcell : g.getD (row * 6 + col) 0 = 0) (hlen : g.length = 36)
    (hv5 : violates_c5 g row col v = false) :
    rookOK (g.set (row * 6 + col) v) := by
  have hidx : row * 6 + col < 36 := by omega
  have hset : (g.set (row * 6 + col) v).getD (row * 6 + col) 0 = v :=
    GridAux.getD_set_eq g _ v (by omega)
  have hother : ∀ j, j ≠ row * 6 + col → (g.set (row * 6 + col) v).getD j 0 = g.getD j 0 :=
    fun j hj => GridAux.getD_set_ne g v (fun h => hj h.symm)
  by_cases hvS : v ∈ SPECIAL_NUMBERS
  case neg =>
    -- the new value is not special: every special pair is a pair of `g`
    intro p hp q hq hpq hsp hsq
    have hpne : p ≠ row * 6 + col := by
      intro h; rw [h, hset] at hsp; exact hvS hsp
    have hqne : q ≠ row * 6 + col := by
      intro h; rw [h, hset] at hsq; exact hvS hsq
    rw [hother p hpne] at hsp
    rw [hother q hqne] at hsq
    exact hg p hp q hq hpq hsp hsq
  case pos =>
    rw [violates_c5, if_neg (not_not_intro hvS)] at hv5
    have hscan_row : ∀ c < 6, c ≠ col → cell g row c ≠ 0 → cell g row c ∉ SPECIAL_NUMBERS := by
      intro c hc hcol' hnz hmem
      by_cases hany : (List.range 6).any (fun c =>
          decide (c ≠ col) && decide (cell g row c ≠ 0) &&
            decide (cell g row c ∈ SPECIAL_NUMBERS)) = true
      · rw [if_pos hany] at hv5; exact absurd hv5 (by simp)
      · refine hany ?_
        rw [List.any_eq_true]
        exact ⟨c, List.mem_range.2 hc, by simp [hcol', hnz, hmem]⟩
    have hscan_col : ∀ r < 6, r ≠ row → cell g r col ≠ 0 → cell g r col ∉ SPECIAL_NUMBERS := by
      intro r hr hrow' hnz hmem
      by_cases hany : (List.range 6).any (fun c =>
          decide (c ≠ col) && decide (cell g row c ≠ 0) &&
            decide (cell g row c ∈ SPECIAL_NUMBERS)) = true
      · rw [if_pos hany] at hv5; exact absurd hv5 (by simp)
      · rw [if_neg hany] at hv5
        by_cases hany2 : (List.range 6).any (fun r =>
            decide (r ≠ row) && decide (cell g r col ≠ 0) &&
              decide (cell g r col ∈ SPECIAL_NUMBERS)) = true
        · rw [if_pos hany2] at hv5; exact absurd hv5 (by simp)
        · refine hany2 ?_
          rw [List.any_eq_true]
          exact ⟨r, List.mem_range.2 hr, by simp [hrow', hnz, hmem]⟩
    -- a cell of `g` holding a special value collides with neither the new
    -- cell's row nor its column
    have hfresh : ∀ q < 36, q ≠ row * 6 + col → g.getD q 0 ∈ SPECIAL_NUMBERS →
        q / 6 ≠ row ∧ q % 6 ≠ col := by
      intro q hq hqne hsq
      have hnz : g.getD q 0 ≠ 0 := special_ne_zero hsq
      have hqdecomp : q = (q / 6) * 6 + q % 6 := by omega
      constructor
      · intro hdiv
        have hc : q % 6 ≠ col := by
          intro hmod; exact hqne (by omega)
        have hcellq : cell g row (q % 6) = g.getD q 0 := by
          rw [cell, ← hdiv]; rw [← hqdecomp]
        exact hscan_row (q % 6) (by omega) hc (by rw [hcellq]; exact hnz)
          (by rw [hcellq]; exact hsq)
      · intro hmod
        have hr : q / 6 ≠ row := by
          intro hdiv; exact hqne (by omega)
        have hcellq : cell g (q / 6) col = g.getD q 0 := by
          rw [cell, ← hmod]; rw [← hqdecomp]
        exact hscan_col (q / 6) (by omega) hr (by rw [hcellq]; exact hnz)
          (by rw [hcellq]; exact hsq)
    intro p hp q hq hpq hsp hsq
    by_cases hpe : p = row * 6 + col
    · have hqne : q ≠ row * 6 + col := fun h => hpq (hpe.trans h.symm)
      rw [hother q hqne] at hsq
      obtain ⟨hd, hm⟩ := hfresh q hq hqne hsq
      subst hpe
      constructor
      · intro h; exact hd (by omega)
      · intro h; exact hm (by omega)
    · rw [hother p hpe] at hsp
      by_cases hqe : q = row * 6 + col
      · obtain ⟨hd, hm⟩ := hfresh p hp hpe hsp
        subst hqe
        constructor
        · intro h; exact hd (by omega)
        · intro h; exact hm (by omega)
      · rw [hother q hqe] at hsq
        exact hg p hp q hq hpq hsp hsq

/-- Search-state invariant of the `5_solve_grid.py` solver: cell (0,0) holds
the fixed seed 1, the rook condition holds, and cells from the scan position
on are unassigned. -/
def Inv (g : List Nat) (u : Finset Nat) (idx : Nat) : Prop :=
  EmptyFrom g idx ∧ g.getD 0 0 = 1 ∧ rookOK g

instance (g : List Nat) (u : Finset Nat) (idx : Nat) : Decidable (Inv g u idx) := by
  unfold Inv; infer_instance

theorem Inv.place_inv5 {g : List Nat} {u : Finset Nat} {row col v : Nat}
    (h : Inv g u (row * 6 + col)) (hrow : row < 6) (hcol : col < 6)
    (hc0 : row * 6 + col ≠ 0) (hvalid : is_valid_placement g row col v = true) :
    Inv (place g row col v) (insert v u) (row * 6 + col + 1) := by
  obtain ⟨he, h0, hr⟩ := h
  have hcell : g.getD (row * 6 + col) 0 = 0 := he.getD_zero5 le_rfl hc0
  refine ⟨he.place5 v, ?_, ?_⟩
  · rw [Solve5.place, GridAux.getD_set_ne g (i := row * 6 + col) (j := 0) v hc0]
    exact h0
  · exact rookOK_place hrow hcol hr hcell he.1 (valid_imp_not_c5 hvalid)

/-- Every successful pass through the value loop of `5_solve_grid.py` leaves
a grid with seed cell 1 and the rook condition intact, provided the
recursive call does. -/
theorem tryValues_ok (recur : List Nat → Finset Nat → Bool × List Nat × Finset Nat)
    (row col : Nat) (hrow : row < 6) (hcol : col < 6) (hc0 : row * 6 + col ≠ 0)
    (hrec : ∀ g' u', Inv g' u' (row * 6 + col + 1) → (recur g' u').1 = true →
      (recur g' u').2.1.getD 0 0 = 1 ∧ rookOK (recur g' u').2.1)
    (hrec0 : ∀ g' u', EmptyFrom g' (row * 6 + col + 1) →
      (recur g' u').1 = false → (recur g' u').2 = (g', u')) :
    ∀ vals g u, Inv g u (row * 6 + col) →
      (tryValues recur row col vals g u).1 = true →
      (tryValues recur row col vals g u).2.1.getD 0 0 = 1 ∧
        rookOK (tryValues recur row col vals g u).2.1 := by
  intro vals
  induction vals with
  | nil => intro g u _ hf; simp [tryValues] at hf
  | cons v rest ih =>
    intro g u hinv hf
    have hcell : g.getD (row * 6 + col) 0 = 0 := hinv.1.getD_zero5 le_rfl hc0
    by_cases hv : v ∈ u
    · rw [tryValues, if_pos hv] at hf ⊢; exact ih g u hinv hf
    · by_cases hvp : ¬ is_valid_placement g row col v
      · rw [tryValues, if_neg hv, if_pos hvp] at hf ⊢; exact ih g u hinv hf
      · have hval : is_valid_placement g row col v = true := by simpa using hvp
        have hundo : place (place g row col v) row col 0 = g := place_undo5 g row col v hcell
        have herase : (insert v u).erase v = u := Finset.erase_insert hv
        have hinv1 : Inv (place g row col v) (insert v u) (row * 6 + col + 1) :=
          hinv.place_inv5 hrow hcol hc0 hval
        rw [tryValues, if_neg hv, if_neg hvp] at hf ⊢
        simp only at hf ⊢
        by_cases hr : (recur (place g row col v) (insert v u)).1 = true
        · rw [if_pos hr] at hf ⊢
          exact hrec _ _ hinv1 hr
        · have hr' : (recur (place g row col v) (insert v u)).1 = false := by simpa using hr
          have hres := hrec0 _ _ hinv1.1 hr'
          rw [if_neg hr] at hf ⊢
          rw [hres] at hf ⊢
          simp only at hf ⊢
          rw [hundo, herase] at hf ⊢
          exact ih g u hinv hf

/-- When the `5_solve_grid.py` solver reports success from a state satisfying
its invariant, the resulting grid keeps cell (0,0) = 1 and no two special
values of {1,12,24,36} share a row or a column. -/
theorem solve_grid_ok : ∀ fuel row col g u, col < 6 →
    Inv g u (row * 6 + col) →
    (solve_grid fuel g u row col).1 = true →
    (solve_grid fuel g u row col).2.1.getD 0 0 = 1 ∧
      rookOK (solve_grid fuel g u row col).2.1 := by
  intro fuel
  induction fuel with
  | zero => intro row col g u _ _ hf; simp [solve_grid] at hf
  | succ n ih =>
    intro row col g u hcol hinv hf
    by_cases hb : SIZE ≤ row
    · rw [solve_grid, if_pos hb] at hf ⊢
      exact ⟨hinv.2.1, hinv.2.2⟩
    · have hrow : row < 6 := by simpa [SIZE] using hb
      obtain ⟨hnidx, hncol⟩ := next_idx5 row col hcol
      by_cases hcen : row = 0 ∧ col = 0
      · rw [solve_grid, if_neg hb, if_pos hcen] at hf ⊢
        refine ih _ _ g u hncol ?_ hf
        rw [hnidx]
        exact ⟨hinv.1.mono5 (by omega), hinv.2.1, hinv.2.2⟩
      · have hc0 : row * 6 + col ≠ 0 := fun h0 => hcen ⟨by omega, by omega⟩
        rw [solve_grid, if_neg hb, if_neg hcen] at hf ⊢
        refine tryValues_ok _ row col hrow hcol hc0 ?_ ?_ _ g u hinv hf
        · intro g' u' hinv' hf'
          exact ih _ _ g' u' hncol (by rw [hnidx]; exact hinv') hf'
        · intro g' u' he' hf'
          exact solve_grid_restore5 n _ _ g' u' hncol (by rw [hnidx]; exact he') hf'

end Solve5

namespace Solve6

/-- Embedding of `SIZE = 5` of `6_solve_grid.py`. -/
def SIZE : Nat := 5

/-- Embedding of `TOTAL_CELLS = 25` of `6_solve_grid.py`. -/
def TOTAL_CELLS : Nat := SIZE * SIZE

/-- The `NEIGHBORS` table of `6_solve_grid.py`, as a function of the cell:
up, down, left, right, appended in source order when in range. -/
def NEIGHBORS (row col : Nat) : List (Nat × Nat) :=
  (if 0 < row then [(row - 1, col)] else []) ++
  (if row < SIZE - 1 then [(row + 1, col)] else []) ++
  (if 0 < col then [(row, col - 1)] else []) ++
  (if col < SIZE - 1 then [(row, col + 1)] else [])

/-- Access `grid[row][col]` of the flattened 5-wide grid. -/
def cell (g : List Nat) (row col : Nat) : Nat :=
  g.getD (row * 5 + col) 0

/-- The forbidden-value set a cell's filled neighbors impose, as computed by
the identical blocks in `has_valid_placement_fast` and `solve_grid_count`:
for each filled neighbor value `nv`, add `nv - 1` when `nv > 1` and `nv + 1`
when `nv < TOTAL_CELLS`. -/
def forbiddenAt (g : List Nat) (row col : Nat) : Finset Nat :=
  (NEIGHBORS row col).foldl (fun f nb =>
    let nv := cell g nb.1 nb.2
    if nv ≠ 0 then
      let f1 := if 1 < nv then insert (nv - 1) f else f
      if nv < TOTAL_CELLS then insert (nv + 1) f1 else f1
    else f) ∅

/-- Embedding of `has_valid_placement_fast` of `6_solve_grid.py`: the early cardinality
exit (`len(used) + len(forbidden) >= TOTAL_CELLS` and the two sets are
disjoint), then the scan for an available value. -/
def has_valid_placement_fast (g : List Nat) (u : Finset Nat) (row col : Nat) : Bool :=
  let forbidden := forbiddenAt g row col
  if 25 ≤ u.card + forbidden.card ∧ u ∩ forbidden = ∅ then false
  else (List.range' 1 TOTAL_CELLS).any fun v => decide (v ∉ u) && decide (v ∉ forbidden)

/-- Embedding of `get_next_position` of `6_solve_grid.py`. -/
def get_next_position (row col : Nat) : Nat × Nat :=
  if col < SIZE - 1 then (row, col + 1) else (row + 1, 0)

/-- Embedding of `forward_check_improved` of `6_solve_grid.py`: walk up to `depth` next
positions; break at the grid end; fail as soon as one has no valid
placement. -/
def forward_check_improved (g : List Nat) (u : Finset Nat) : Nat → Nat → Nat → Bool
  | row, col, 0 => true
  | row, col, d + 1 =>
    let next := get_next_position row col
    if SIZE ≤ next.1 then true
    else if ¬ has_valid_placement_fast g u next.1 next.2 then false
    else forward_check_improved g u next.1 next.2 d

/-- Embedding of `grid[row][col] = v` on the flattened grid. -/
def place (g : List Nat) (row col v : Nat) : List Nat :=
  g.set (row * 5 + col) v

/-- The `for value in valid_values` loop of `solve_grid_count`, recursion
abstracted as `recur` and state threaded: place, take the branch's
contribution (1 at the last cell, the recursive count after a passing
forward check, 0 on a failing forward check), then undo. -/
def tryCount (recur : List Nat → Finset Nat → Nat × List Nat × Finset Nat)
    (row col : Nat) (next : Nat × Nat) :
    List Nat → List Nat → Finset Nat → Nat → Nat × List Nat × Finset Nat
  | [], g, u, count => (count, g, u)
  | v :: rest, g, u, count =>
    let g1 := place g row col v
    let u1 := insert v u
    let r :=
      if SIZE ≤ next.1 then (1, g1, u1)
      else if forward_check_improved g1 u1 row col 2 then recur g1 u1
      else (0, g1, u1)
    tryCount recur row col next rest (place r.2.1 row col 0) (r.2.2.erase v) (count + r.1)

/-- Embedding of `solve_grid_count` of `6_solve_grid.py`: the optimized count-all solver
with the depth-2 forward check. -/
def solve_grid_count : Nat → List Nat → Finset Nat → Nat → Nat →
    Nat × List Nat × Finset Nat
  | 0, g, u, _, _ => (0, g, u)
  | fuel + 1, g, u, row, col =>
    if SIZE ≤ row then (1, g, u)
    else
      tryCount
        (fun g2 u2 =>
          solve_grid_count fuel g2 u2 (get_next_position row col).1 (get_next_position row col).2)
        row col (get_next_position row col)
        ((List.range' 1 TOTAL_CELLS).filter fun v =>
          decide (v ∉ u) && decide (v ∉ forbiddenAt g row col))
        g u 0

/-- The same loop with the forward-check pruning removed: every placed value
recurses (except at the last cell, counted directly). -/
def tryCountPlain (recur : List Nat → Finset Nat → Nat × List Nat × Finset Nat)
    (row col : Nat) (next : Nat × Nat) :
    List Nat → List Nat → Finset Nat → Nat → Nat × List Nat × Finset Nat
  | [], g, u, count => (count, g, u)
  | v :: rest, g, u, count =>
    let g1 := place g row col v
    let u1 := insert v u
    let r :=
      if SIZE ≤ next.1 then (1, g1, u1)
      else recur g1 u1
    tryCountPlain recur row col next rest (place r.2.1 row col 0) (r.2.2.erase v) (count + r.1)

/-- Modelled from the spec: the same backtracking count with the
forward-check pruning removed ("a pruning optimization … must not change the
set of returned results"), for comparison with `solve_grid_count`. -/
def solve_grid_count_noprune : Nat → List Nat → Finset Nat → Nat → Nat →
    Nat × List Nat × Finset Nat
  | 0, g, u, _, _ => (0, g, u)
  | fuel + 1, g, u, row, col =>
    if SIZE ≤ row then (1, g, u)
    else
      tryCountPlain
        (fun g2 u2 =>
          solve_grid_count_noprune fuel g2 u2
            (get_next_position row col).1 (get_next_position row col).2)
        row col (get_next_position row col)
        ((List.range' 1 TOTAL_CELLS).filter fun v =>
          decide (v ∉ u) && decide (v ∉ forbiddenAt g row col))
        g u 0

/-- The initial grid of `main` in `6_solve_grid.py`: all zeros. -/
def initGrid : List Nat := List.replicate 25 0

/-- The count printed by `main` of `6_solve_grid.py`. -/
def mainCount (fuel : Nat) : Nat :=
  (solve_grid_count fuel initGrid ∅ 0 0).1

/-- The process exit status of `main` in `6_solve_grid.py`: always 0. -/
def mainExit (fuel : Nat) : Nat :=
  (fun _ => 0) (mainCount fuel)

/-- All cells at linear index ≥ `idx` are unassigned. -/
def EmptyFrom (g : List Nat) (idx : Nat) : Prop :=
  g.length = 25 ∧ ∀ q < 25, idx ≤ q → g.getD q 0 = 0

instance (g : List Nat) (idx : Nat) : Decidable (EmptyFrom g idx) := by
  unfold EmptyFrom; infer_instance

theorem EmptyFrom.getD_zero6 {g : List Nat} {idx q : Nat} (h : EmptyFrom g idx)
    (h1 : idx ≤ q) : g.getD q 0 = 0 := by
  by_cases hq : q < 25
  · exact h.2 q hq h1
  · exact GridAux.getD_eq_zero_of_le g (by rw [h.1]; omega)

theorem EmptyFrom.place6 {g : List Nat} {row col : Nat} (h : EmptyFrom g (row * 5 + col))
    (v : Nat) : EmptyFrom (place g row col v) (row * 5 + col + 1) := by
  refine ⟨by simpa [Solve6.place] using h.1, fun q hq h1 => ?_⟩
  rw [Solve6.place, GridAux.getD_set_ne _ _ (by omega)]
  exact h.2 q hq (by omega)

theorem next_idx6 (row col : Nat) (h : col < 5) :
    (get_next_position row col).1 * 5 + (get_next_position row col).2 = row * 5 + col + 1 ∧
      (get_next_position row col).2 < 5 := by
  simp only [get_next_position, SIZE]
  split <;> constructor <;> omega

theorem place_undo6 (g : List Nat) (row col v : Nat) (h : g.getD (row * 5 + col) 0 = 0) :
    place (place g row col v) row col 0 = g := by
  unfold place
  rw [List.set_set]
  exact GridAux.set_zero_of_getD g _ h

/-- Every pass through the counting loop restores the grid and used set it
was entered with, whatever the accumulated count, provided the recursive
call does. -/
theorem tryCount_restore (recur : List Nat → Finset Nat → Nat × List Nat × Finset Nat)
    (row col : Nat) (next : Nat × Nat)
    (hrec : ∀ g' u', EmptyFrom g' (row * 5 + col + 1) → (recur g' u').2 = (g', u')) :
    ∀ vals g u count, EmptyFrom g (row * 5 + col) → (∀ v ∈ vals, v ∉ u) →
      (tryCount recur row col next vals g u count).2 = (g, u) := by
  intro vals
  induction vals with
  | nil => intro g u count _ _; rfl
  | cons v rest ih =>
    intro g u count he hvals
    have hv : v ∉ u := hvals v (List.mem_cons_self v rest)
    have hcell : g.getD (row * 5 + col) 0 = 0 := he.getD_zero6 le_rfl
    have hundo : place (place g row col v) row col 0 = g := place_undo6 g row col v hcell
    have herase : (insert v u).erase v = u := Finset.erase_insert hv
    simp only [tryCount]
    have hres :
        (if SIZE ≤ next.1 then (1, place g row col v, insert v u)
         else if forward_check_improved (place g row col v) (insert v u) row col 2 then
           recur (place g row col v) (insert v u)
         else (0, place g row col v, insert v u)).2 = (place g row col v, insert v u) := by
      by_cases h1 : SIZE ≤ next.1
      · rw [if_pos h1]
      · rw [if_neg h1]
        by_cases h2 : forward_check_improved (place g row col v) (insert v u) row col 2 = true
        · rw [if_pos h2]; exact hrec _ _ (he.place6 v)
        · rw [if_neg h2]
    rw [hres]
    simp only
    rw [hundo, herase]
    exact ih g u _ he (fun w hw => hvals w (List.mem_cons_of_mem v hw))

/-- The plain-loop analogue of `tryCount_restore`. -/
theorem tryCountPlain_restore (recur : List Nat → Finset Nat → Nat × List Nat × Finset Nat)
    (row col : Nat) (next : Nat × Nat)
    (hrec : ∀ g' u', EmptyFrom g' (row * 5 + col + 1) → (recur g' u').2 = (g', u')) :
    ∀ vals g u count, EmptyFrom g (row * 5 + col) → (∀ v ∈ vals, v ∉ u) →
      (tryCountPlain recur row col next vals g u count).2 = (g, u) := by
  intro vals
  induction vals with
  | nil => intro g u count _ _; rfl
  | cons v rest ih =>
    intro g u count he hvals
    have hv : v ∉ u := hvals v (List.mem_cons_self v rest)
    have hcell : g.getD (row * 5 + col) 0 = 0 := he.getD_zero6 le_rfl
    have hundo : place (place g row col v) row col 0 = g := place_undo6 g row col v hcell
    have herase : (insert v u).erase v = u := Finset.erase_insert hv
    simp only [tryCountPlain]
    have hres :
        (if SIZE ≤ next.1 then (1, place g row col v, insert v u)
         else recur (place g row col v) (insert v u)).2 =
          (place g row col v, insert v u) := by
      by_cases h1 : SIZE ≤ next.1
      · rw [if_pos h1]
      · rw [if_neg h1]; exact hrec _ _ (he.place6 v)
    rw [hres]
    simp only
    rw [hundo, herase]
    exact ih g u _ he (fun w hw => hvals w (List.mem_cons_of_mem v hw))

theorem filter_not_mem (u : Finset Nat) (f : Finset Nat) :
    ∀ v ∈ (List.range' 1 TOTAL_CELLS).filter fun v =>
      decide (v ∉ u) && decide (v ∉ f), v ∉ u := by
  intro v hv
  have := List.of_mem_filter hv
  simp only [Bool.and_eq_true, decide_eq_true_eq] at this
  exact this.1

/-- Embedding of `solve_grid_count` leaves the grid and used set exactly as at entry,
whatever count it returns. -/
theorem solve_grid_count_restore : ∀ fuel row col g u, col < 5 →
    EmptyFrom g (row * 5 + col) →
    (solve_grid_count fuel g u row col).2 = (g, u) := by
  intro fuel
  induction fuel with
  | zero => intros; rfl
  | succ n ih =>
    intro row col g u hcol he
    by_cases hb : SIZE ≤ row
    · rw [solve_grid_count, if_pos hb]
    · obtain ⟨hnidx, hncol⟩ := next_idx6 row col hcol
      rw [solve_grid_count, if_neg hb]
      exact tryCount_restore _ row col _
        (fun g' u' he' => ih _ _ g' u' hncol (by rw [hnidx]; exact he'))
        _ g u 0 he (filter_not_mem u _)

/-- Embedding of `solve_grid_count_noprune` leaves the grid and used set exactly as at
entry, whatever count it returns. -/
theorem solve_grid_count_noprune_restore : ∀ fuel row col g u, col < 5 →
    EmptyFrom g (row * 5 + col) →
    (solve_grid_count_noprune fuel g u row col).2 = (g, u) := by
  intro fuel
  induction fuel with
  | zero => intros; rfl
  | succ n ih =>
    intro row col g u hcol he
    by_cases hb : SIZE ≤ row
    · rw [solve_grid_count_noprune, if_pos hb]
    · obtain ⟨hnidx, hncol⟩ := next_idx6 row col hcol
      rw [solve_grid_count_noprune, if_neg hb]
      exact tryCountPlain_restore _ row col _
        (fun g' u' he' => ih _ _ g' u' hncol (by rw [hnidx]; exact he'))
        _ g u 0 he (filter_not_mem u _)

/-- What one neighbor contributes to the forbidden set. -/
def nbContrib (g : List Nat) (nb : Nat × Nat) (x : Nat) : Prop :=
  cell g nb.1 nb.2 ≠ 0 ∧
    ((1 < cell g nb.1 nb.2 ∧ x = cell g nb.1 nb.2 - 1) ∨
     (cell g nb.1 nb.2 < TOTAL_CELLS ∧ x = cell g nb.1 nb.2 + 1))

theorem mem_forbiddenAt {g : List Nat} {row col x : Nat} :
    x ∈ forbiddenAt g row col ↔ ∃ nb ∈ NEIGHBORS row col, nbContrib g nb x := by
  have key : ∀ (l : List (Nat × Nat)) (init : Finset Nat),
      (x ∈ l.foldl (fun f nb =>
        let nv := cell g nb.1 nb.2
        if nv ≠ 0 then
          let f1 := if 1 < nv then insert (nv - 1) f else f
          if nv < TOTAL_CELLS then insert (nv + 1) f1 else f1
        else f) init) ↔ x ∈ init ∨ ∃ nb ∈ l, nbContrib g nb x := by
    intro l
    induction l with
    | nil => intro init; simp
    | cons nb rest ih =>
      intro init
      rw [List.foldl_cons, ih]
      have hstep : (x ∈ (fun f (nb : Nat × Nat) =>
          let nv := cell g nb.1 nb.2
          if nv ≠ 0 then
            let f1 := if 1 < nv then insert (nv - 1) f else f
            if nv < TOTAL_CELLS then insert (nv + 1) f1 else f1
          else f) init nb) ↔ x ∈ init ∨ nbContrib g nb x := by
        simp only
        by_cases hz : cell g nb.1 nb.2 ≠ 0
        · rw [if_pos hz]
          by_cases h25 : cell g nb.1 nb.2 < TOTAL_CELLS
          · rw [if_pos h25]
            by_cases h1 : 1 < cell g nb.1 nb.2
            · rw [if_pos h1]
              simp only [Finset.mem_insert, nbContrib, hz, h25, h1, true_and]
              tauto
            · rw [if_neg h1]
              simp only [Finset.mem_insert, nbContrib, hz, h25, h1, true_and,
                false_and, false_or]
              tauto
          · rw [if_neg h25]
            by_cases h1 : 1 < cell g nb.1 nb.2
            · rw [if_pos h1]
              simp only [Finset.mem_insert, nbContrib, hz, h25, h1, true_and,
                false_and, or_false]
              tauto
            · rw [if_neg h1]
              simp only [nbContrib, hz, h25, h1, true_and, false_and, or_false]
              tauto
        · rw [if_neg hz]
          simp only [nbContrib, hz, false_and, or_false]
      rw [hstep]
      simp only [List.mem_cons]
      constructor
      · rintro ((hx | hc) | ⟨nb', hnb', hc'⟩)
        · exact Or.inl hx
        · exact Or.inr ⟨nb, Or.inl rfl, hc⟩
        · exact Or.inr ⟨nb', Or.inr hnb', hc'⟩
      · rintro (hx | ⟨nb', hnb' | hnb', hc'⟩)
        · exact Or.inl (Or.inl hx)
        · exact Or.inl (Or.inr (hnb' ▸ hc'))
        · exact Or.inr ⟨nb', hnb', hc'⟩
  have := key (NEIGHBORS row col) ∅
  simpa [forbiddenAt] using this

/-- Values of 1..25 placed at assigned cells. -/
def gridBound (g : List Nat) : Prop :=
  ∀ i < 25, g.getD i 0 ≤ 25

instance (g : List Nat) : Decidable (gridBound g) := by
  unfold gridBound; infer_instance

/-- Used values drawn from 1..25. -/
def usedBound (u : Finset Nat) : Prop :=
  ∀ x ∈ u, 1 ≤ x ∧ x ≤ 25

instance (u : Finset Nat) : Decidable (usedBound u) := by
  unfold usedBound; infer_instance

theorem gridBound_all {g : List Nat} (hb : gridBound g) (hlen : g.length = 25) :
    ∀ i, g.getD i 0 ≤ 25 := by
  intro i
  by_cases hi : i < 25
  · exact hb i hi
  · rw [GridAux.getD_eq_zero_of_le g (by omega)]; omega

theorem forbiddenAt_bound {g : List Nat} {row col : Nat}
    (hg : ∀ i, g.getD i 0 ≤ 25) :
    ∀ x ∈ forbiddenAt g row col, 1 ≤ x ∧ x ≤ 25 := by
  intro x hx
  obtain ⟨nb, _, hnz, hc⟩ := mem_forbiddenAt.1 hx
  have hb : cell g nb.1 nb.2 ≤ 25 := hg _
  simp only [TOTAL_CELLS, SIZE] at hc
  rcases hc with ⟨h1, rfl⟩ | ⟨h25, rfl⟩ <;> omega

/-- Filling a previously empty cell can only grow a cell's forbidden set. -/
theorem forbiddenAt_mono {g : List Nat} {i v : Nat} (h : g.getD i 0 = 0) (row col : Nat) :
    forbiddenAt g row col ⊆ forbiddenAt (g.set i v) row col := by
  intro x hx
  rw [mem_forbiddenAt] at hx ⊢
  obtain ⟨nb, hnb, hc⟩ := hx
  have hcells : cell (g.set i v) nb.1 nb.2 = cell g nb.1 nb.2 := by
    by_cases hne : nb.1 * 5 + nb.2 = i
    · exfalso
      have := hc.1
      rw [cell, hne, h] at this
      exact this rfl
    · rw [cell, cell, GridAux.getD_set_ne g (i := i) (j := nb.1 * 5 + nb.2) v
        (fun hh => hne hh.symm)]
  refine ⟨nb, hnb, ?_⟩
  rw [nbContrib, hcells]
  exact hc

/-- When `has_valid_placement_fast` reports no valid value, every value of
1..25 is indeed used or forbidden (under the range invariants the search
maintains). -/
theorem hvpf_false {g : List Nat} {u : Finset Nat} {row col : Nat}
    (hu : usedBound u) (hg : ∀ i, g.getD i 0 ≤ 25)
    (hf : has_valid_placement_fast g u row col = false) :
    ∀ v, 1 ≤ v → v ≤ 25 → v ∈ u ∨ v ∈ forbiddenAt g row col := by
  intro v hv1 hv2
  simp only [has_valid_placement_fast] at hf
  by_cases hearly : 25 ≤ u.card + (forbiddenAt g row col).card ∧
      u ∩ forbiddenAt g row col = ∅
  · obtain ⟨hcard, hdisj⟩ := hearly
    have hsub : u ∪ forbiddenAt g row col ⊆ Finset.Icc 1 25 := by
      intro x hx
      rcases Finset.mem_union.1 hx with hxu | hxf
      · exact Finset.mem_Icc.2 (hu x hxu)
      · exact Finset.mem_Icc.2 (forbiddenAt_bound hg x hxf)
    have hdisj' : Disjoint u (forbiddenAt g row col) :=
      Finset.disjoint_iff_inter_eq_empty.2 hdisj
    have hcard2 : (u ∪ forbiddenAt g row col).card =
        u.card + (forbiddenAt g row col).card :=
      Finset.card_union_of_disjoint hdisj'
    have hequ : u ∪ forbiddenAt g row col = Finset.Icc 1 25 :=
      Finset.eq_of_subset_of_card_le hsub (by rw [hcard2, Nat.card_Icc]; omega)
    have hv : v ∈ u ∪ forbiddenAt g row col := by
      rw [hequ]; exact Finset.mem_Icc.2 ⟨hv1, hv2⟩
    exact Finset.mem_union.1 hv
  · rw [if_neg hearly] at hf
    by_contra hcon
    push_neg at hcon
    have hvmem : v ∈ List.range' 1 TOTAL_CELLS := by
      rw [List.mem_range'_1]
      simp only [TOTAL_CELLS, SIZE]
      omega
    have hp : (fun v => decide (v ∉ u) && decide (v ∉ forbiddenAt g row col)) v = true := by
      simp [hcon.1, hcon.2]
    have hfa : ((List.range' 1 TOTAL_CELLS).any fun v =>
        decide (v ∉ u) && decide (v ∉ forbiddenAt g row col)) = true :=
      List.any_eq_true.2 ⟨v, hvmem, hp⟩
    rw [hfa] at hf
    exact absurd hf (by simp)

/-- When the depth-d forward check fails, some strictly later cell of the
scan already has no valid placement. -/
theorem fc_false {g : List Nat} {u : Finset Nat} : ∀ d row col, col < 5 →
    forward_check_improved g u row col d = false →
    ∃ cr cc, cr < 5 ∧ cc < 5 ∧ row * 5 + col < cr * 5 + cc ∧
      has_valid_placement_fast g u cr cc = false := by
  intro d
  induction d with
  | zero => intro row col _ hf; simp [forward_check_improved] at hf
  | succ n ih =>
    intro row col hcol hf
    obtain ⟨hnidx, hncol⟩ := next_idx6 row col hcol
    simp only [forward_check_improved] at hf
    by_cases h1 : SIZE ≤ (get_next_position row col).1
    · rw [if_pos h1] at hf; exact absurd hf (by simp)
    · rw [if_neg h1] at hf
      by_cases h2 : ¬ has_valid_placement_fast g u
          (get_next_position row col).1 (get_next_position row col).2
      · exact ⟨(get_next_position row col).1, (get_next_position row col).2,
          by simpa [SIZE] using h1, hncol, by omega, by simpa using h2⟩
      · rw [if_neg h2] at hf
        obtain ⟨cr, cc, h3, h4, h5, h6⟩ := ih _ _ hncol hf
        exact ⟨cr, cc, h3, h4, by omega, h6⟩

/-- Cell (qr,qc) has no placeable value: every value of 1..25 is used or
forbidden by that cell's filled neighbors. -/
def noValue (g : List Nat) (u : Finset Nat) (qr qc : Nat) : Prop :=
  ∀ v, 1 ≤ v → v ≤ 25 → v ∈ u ∨ v ∈ forbiddenAt g qr qc

theorem noValue_place {g : List Nat} {u : Finset Nat} {qr qc row col v : Nat}
    (h : noValue g u qr qc) (hcell : g.getD (row * 5 + col) 0 = 0) :
    noValue (place g row col v) (insert v u) qr qc := by
  intro w h1 h2
  rcases h w h1 h2 with hw | hw
  · exact Or.inl (Finset.mem_insert_of_mem hw)
  · exact Or.inr (forbiddenAt_mono hcell qr qc hw)

/-- When some cell at or after the scan position has no placeable value, the
plain counting loop contributes nothing: every branch's recursive count is 0. -/
theorem tryCountPlain_zero (recur : List Nat → Finset Nat → Nat × List Nat × Finset Nat)
    (row col : Nat) (next : Nat × Nat) (qr qc : Nat)
    (hni : next.1 * 5 + next.2 = row * 5 + col + 1)
    (hqr : qr < 5) (hqc : qc < 5) (hqgt : row * 5 + col < qr * 5 + qc)
    (hrec : ∀ g' u', EmptyFrom g' (row * 5 + col + 1) → noValue g' u' qr qc →
      recur g' u' = (0, g', u')) :
    ∀ vals g u count, EmptyFrom g (row * 5 + col) → (∀ v ∈ vals, v ∉ u) →
      noValue g u qr qc →
      tryCountPlain recur row col next vals g u count = (count, g, u) := by
  intro vals
  induction vals with
  | nil => intro g u count _ _ _; rfl
  | cons v rest ih =>
    intro g u count he hvals hnv
    have hv : v ∉ u := hvals v (List.mem_cons_self v rest)
    have hcell : g.getD (row * 5 + col) 0 = 0 := he.getD_zero6 le_rfl
    have hundo : place (place g row col v) row col 0 = g := place_undo6 g row col v hcell
    have herase : (insert v u).erase v = u := Finset.erase_insert hv
    have hn5 : ¬ SIZE ≤ next.1 := by
      simp only [SIZE]
      omega
    simp only [tryCountPlain]
    rw [if_neg hn5]
    rw [hrec (place g row col v) (insert v u) (he.place6 v) (noValue_place hnv hcell)]
    simp only
    rw [hundo, herase, Nat.add_zero]
    exact ih g u count he (fun w hw => hvals w (List.mem_cons_of_mem v hw)) hnv

/-- Pruning soundness: when some cell at or after the scan position already
has no placeable value, the unpruned search finds no solution (count 0) and
restores its entry state. -/
theorem noprune_zero : ∀ fuel row col g u qr qc, col < 5 → qr < 5 → qc < 5 →
    row * 5 + col ≤ qr * 5 + qc → EmptyFrom g (row * 5 + col) → noValue g u qr qc →
    solve_grid_count_noprune fuel g u row col = (0, g, u) := by
  intro fuel
  induction fuel with
  | zero => intros; rfl
  | succ n ih =>
    intro row col g u qr qc hcol hqr hqc hle he hnv
    have hb : ¬ SIZE ≤ row := by
      simp only [SIZE]
      omega
    obtain ⟨hnidx, hncol⟩ := next_idx6 row col hcol
    rw [solve_grid_count_noprune, if_neg hb]
    by_cases heq : row * 5 + col = qr * 5 + qc
    · have hrq : row = qr ∧ col = qc := by
        have hrow : row < 5 := by simpa [SIZE] using hb
        omega
      obtain ⟨rfl, rfl⟩ := hrq
      have hfil : ((List.range' 1 TOTAL_CELLS).filter fun v =>
          decide (v ∉ u) && decide (v ∉ forbiddenAt g row col)) = [] := by
        rw [List.filter_eq_nil]
        intro v hvmem
        rw [List.mem_range'_1] at hvmem
        simp only [TOTAL_CELLS, SIZE] at hvmem
        rcases hnv v (by omega) (by omega) with hvu | hvf
        · simp [hvu]
        · simp [hvf]
      rw [hfil]
      rfl
    · exact tryCountPlain_zero _ row col _ qr qc hnidx hqr hqc (by omega)
        (fun g' u' he' hnv' => ih _ _ g' u' qr qc hncol hqr hqc
          (by omega) (by rw [hnidx]; exact he') hnv')
        _ g u 0 he (filter_not_mem u _) hnv

theorem filter_vals (g : List Nat) (u : Finset Nat) (row col : Nat) :
    ∀ v ∈ (List.range' 1 TOTAL_CELLS).filter fun v =>
      decide (v ∉ u) && decide (v ∉ forbiddenAt g row col),
      v ∉ u ∧ 1 ≤ v ∧ v ≤ 25 := by
  intro v hv
  have hmem := List.mem_of_mem_filter hv
  have hfil := List.of_mem_filter hv
  rw [List.mem_range'_1] at hmem
  simp only [TOTAL_CELLS, SIZE] at hmem
  simp only [Bool.and_eq_true, decide_eq_true_eq] at hfil
  exact ⟨hfil.1, by omega, by omega⟩

theorem gridBound_place {g : List Nat} {row col v : Nat} (hg : gridBound g)
    (hv : v ≤ 25) : gridBound (place g row col v) := by
  intro i hi
  by_cases hieq : i = row * 5 + col
  · by_cases hlen : row * 5 + col < g.length
    · rw [hieq, Solve6.place, GridAux.getD_set_eq g _ v hlen]; exact hv
    · rw [hieq, Solve6.place, List.set_eq_of_length_le (by omega)]
      exact hg _ (by omega)
  · rw [Solve6.place, GridAux.getD_set_ne g (i := row * 5 + col) (j := i) v
      (fun hh => hieq hh.symm)]
    exact hg i hi

theorem usedBound_insert {u : Finset Nat} {v : Nat} (hu : usedBound u)
    (h1 : 1 ≤ v) (h2 : v ≤ 25) : usedBound (insert v u) := by
  intro x hx
  rcases Finset.mem_insert.1 hx with rfl | hx'
  · exact ⟨h1, h2⟩
  · exact hu x hx'

/-- The pruned and unpruned counting loops agree, pointwise on every entry
state the search can reach. -/
theorem tryCount_eq_plain (recurP recurN : List Nat → Finset Nat → Nat × List Nat × Finset Nat)
    (row col : Nat) (next : Nat × Nat) (hcol : col < 5)
    (hni : next.1 * 5 + next.2 = row * 5 + col + 1)
    (hrecEq : ∀ g' u', EmptyFrom g' (row * 5 + col + 1) → usedBound u' → gridBound g' →
      recurP g' u' = recurN g' u')
    (hrecPres : ∀ g' u', EmptyFrom g' (row * 5 + col + 1) → (recurP g' u').2 = (g', u'))
    (hrecN0 : ∀ g' u' qr qc, qr < 5 → qc < 5 → row * 5 + col + 1 ≤ qr * 5 + qc →
      EmptyFrom g' (row * 5 + col + 1) → noValue g' u' qr qc →
      recurN g' u' = (0, g', u')) :
    ∀ vals g u count, EmptyFrom g (row * 5 + col) → usedBound u → gridBound g →
      (∀ v ∈ vals, v ∉ u ∧ 1 ≤ v ∧ v ≤ 25) →
      tryCount recurP row col next vals g u count =
        tryCountPlain recurN row col next vals g u count := by
  intro vals
  induction vals with
  | nil => intro g u count _ _ _ _; rfl
  | cons v rest ih =>
    intro g u count he hu hg hvals
    obtain ⟨hv, hv1, hv2⟩ := hvals v (List.mem_cons_self v rest)
    have hrest : ∀ w ∈ rest, w ∉ u ∧ 1 ≤ w ∧ w ≤ 25 :=
      fun w hw => hvals w (List.mem_cons_of_mem v hw)
    have hcell : g.getD (row * 5 + col) 0 = 0 := he.getD_zero6 le_rfl
    have hundo : place (place g row col v) row col 0 = g := place_undo6 g row col v hcell
    have herase : (insert v u).erase v = u := Finset.erase_insert hv
    have he1 : EmptyFrom (place g row col v) (row * 5 + col + 1) := he.place6 v
    have hu1 : usedBound (insert v u) := usedBound_insert hu hv1 hv2
    have hg1 : gridBound (place g row col v) := gridBound_place hg hv2
    simp only [tryCount, tryCountPlain]
    by_cases h5 : SIZE ≤ next.1
    · rw [if_pos h5, if_pos h5]
      simp only
      rw [hundo, herase]
      exact ih g u _ he hu hg hrest
    · rw [if_neg h5, if_neg h5]
      by_cases hfc : forward_check_improved (place g row col v) (insert v u) row col 2 = true
      · rw [if_pos hfc]
        rw [hrecEq _ _ he1 hu1 hg1]
        have hpres : (recurN (place g row col v) (insert v u)).2 =
            (place g row col v, insert v u) := by
          rw [← hrecEq _ _ he1 hu1 hg1]
          exact hrecPres _ _ he1
        rw [hpres]
        simp only
        rw [hundo, herase]
        exact ih g u _ he hu hg hrest
      · rw [if_neg hfc]
        have hfc' : forward_check_improved (place g row col v) (insert v u) row col 2 = false := by
          simpa using hfc
        obtain ⟨cr, cc, hcr, hcc, hgt, hbad⟩ := fc_false 2 row col hcol hfc'
        have hnv : noValue (place g row col v) (insert v u) cr cc :=
          hvpf_false hu1 (gridBound_all hg1 (by simpa [Solve6.place] using he.1)) hbad
        rw [hrecN0 _ _ cr cc hcr hcc (by omega) he1 hnv]
        simp only
        rw [hundo, herase]
        exact ih g u _ he hu hg hrest

/-- Refinement: the optimized count-all solver returns exactly what the same
search without the forward-check pruning returns, on every state the search
can reach (the pruning only ever cuts branches of count 0). -/
theorem count_eq_noprune : ∀ fuel row col g u, col < 5 →
    EmptyFrom g (row * 5 + col) → usedBound u → gridBound g →
    solve_grid_count fuel g u row col = solve_grid_count_noprune fuel g u row col := by
  intro fuel
  induction fuel with
  | zero => intros; rfl
  | succ n ih =>
    intro row col g u hcol he hu hg
    by_cases hb : SIZE ≤ row
    · rw [solve_grid_count, solve_grid_count_noprune, if_pos hb, if_pos hb]
    · obtain ⟨hnidx, hncol⟩ := next_idx6 row col hcol
      rw [solve_grid_count, solve_grid_count_noprune, if_neg hb, if_neg hb]
      refine tryCount_eq_plain _ _ row col _ hcol hnidx ?_ ?_ ?_ _ g u 0 he hu hg
        (filter_vals g u row col)
      · intro g' u' he' hu' hg'
        exact ih _ _ g' u' hncol (by rw [hnidx]; exact he') hu' hg'
      · intro g' u' he'
        exact solve_grid_count_restore n _ _ g' u' hncol (by rw [hnidx]; exact he')
      · intro g' u' qr qc hqr hqc hle he' hnv
        exact noprune_zero n _ _ g' u' qr qc hncol hqr hqc (by omega)
          (by rw [hnidx]; exact he') hnv

theorem tryCount_congr (r1 r2 : List Nat → Finset Nat → Nat × List Nat × Finset Nat)
    (row col : Nat) (next : Nat × Nat) (h : ∀ g u, r1 g u = r2 g u) :
    ∀ vals g u count, tryCount r1 row col next vals g u count =
      tryCount r2 row col next vals g u count := by
  intro vals
  induction vals with
  | nil => intro g u count; rfl
  | cons v rest ih =>
    intro g u count
    simp only [tryCount]
    rw [h (place g row col v) (insert v u)]
    exact ih _ _ _

/-- One extra unit of fuel does not change the count once the fuel covers
the remaining recursion depth. -/
theorem solve_grid_count_fuel_succ : ∀ fuel row col g u, col < 5 →
    25 - (row * 5 + col) < fuel →
    solve_grid_count fuel g u row col = solve_grid_count (fuel + 1) g u row col := by
  intro fuel
  induction fuel with
  | zero => intro row col g u _ hlt; omega
  | succ n ih =>
    intro row col g u hcol hlt
    by_cases hb : SIZE ≤ row
    · rw [solve_grid_count, solve_grid_count, if_pos hb, if_pos hb]
    · have hrow : row < 5 := by simpa [SIZE] using hb
      obtain ⟨hnidx, hncol⟩ := next_idx6 row col hcol
      have hlt' : 25 - ((get_next_position row col).1 * 5 + (get_next_position row col).2) < n := by
        rw [hnidx]; omega
      rw [solve_grid_count, solve_grid_count, if_neg hb, if_neg hb]
      exact tryCount_congr _ _ row col _ (fun g' u' => ih _ _ g' u' hncol hlt') _ g u 0

/-- Fuel stability of the counting solver: any fuel covering the remaining
depth gives the same count (the recursion of `6_solve_grid.py` terminates
with this common value). -/
theorem solve_grid_count_fuel_stable (f1 f2 row col : Nat) (g : List Nat) (u : Finset Nat)
    (hcol : col < 5) (h1 : 25 - (row * 5 + col) < f1) (hle : f1 ≤ f2) :
    solve_grid_count f1 g u row col = solve_grid_count f2 g u row col := by
  induction f2, hle using Nat.le_induction with
  | base => rfl
  | succ m hm ih =>
    rw [ih]
    exact solve_grid_count_fuel_succ m row col g u hcol (by omega)

end Solve6

namespace Solve

/-- A reachable-shaped near-final state of `solve_grid.py`: all cells but the
last one assigned, center 13, value 25 still free and placeable at (4,4). -/
def c1GridIn : List Nat :=
  [1, 2, 3, 4, 5, 6, 7, 8, 9, 10, 11, 12, 13, 14, 15, 16, 17, 18, 19, 20, 21, 24, 23, 22, 0]

/-- The used set matching `c1GridIn`. -/
def c1UsedIn : Finset Nat :=
  {1, 2, 3, 4, 5, 6, 7, 8, 9, 10, 11, 12, 13, 14, 15, 16, 17, 18, 19, 20, 21, 22, 23, 24}

end Solve

/-- C1, counterexample: in find-one mode a successful branch does not undo —
`solve_grid` called at the last cell of a near-complete state places 25,
succeeds, and returns with the grid mutated (holding the solution), so the
grid is not bit-for-bit identical to its state before the placement,
contradicting the claim's "in either mode … regardless of the branch's
outcome". -/
theorem c1_counterexample :
    (Solve.solve_grid 2 Solve.c1GridIn Solve.c1UsedIn 4 4).1 = true ∧
    (Solve.solve_grid 2 Solve.c1GridIn Solve.c1UsedIn 4 4).2.1 ≠ Solve.c1GridIn := by
  decide

/-- C1, amended: per-branch undo exactness holds in count-all mode for every
branch regardless of outcome, and in find-one mode for every failed branch:
after placing `v` at the current cell, recursing at the next position, and
applying the undo (`grid[row][col] = 0`, `used.remove(value)`), the grid and
used set are bit-for-bit the entry state.  (A successful find-one branch
instead returns at once with the placement retained.) -/
theorem c1_amended :
    (∀ fuel row col g u v, col < 5 → Solve6.EmptyFrom g (row * 5 + col) → v ∉ u →
      (Solve6.place ((Solve6.solve_grid_count fuel (Solve6.place g row col v) (insert v u)
          (Solve6.get_next_position row col).1 (Solve6.get_next_position row col).2).2.1)
         row col 0,
       ((Solve6.solve_grid_count fuel (Solve6.place g row col v) (insert v u)
          (Solve6.get_next_position row col).1 (Solve6.get_next_position row col).2).2.2).erase v)
        = (g, u)) ∧
    (∀ fuel row col g u v, col < 5 → row * 5 + col ≠ 12 →
      Solve.EmptyFrom g (row * 5 + col) → v ∉ u →
      (Solve.solve_grid fuel (Solve.place g row col v) (insert v u)
          (Solve.get_next_position row col).1 (Solve.get_next_position row col).2).1 = false →
      (Solve.place ((Solve.solve_grid fuel (Solve.place g row col v) (insert v u)
          (Solve.get_next_position row col).1 (Solve.get_next_position row col).2).2.1)
         row col 0,
       ((Solve.solve_grid fuel (Solve.place g row col v) (insert v u)
          (Solve.get_next_position row col).1 (Solve.get_next_position row col).2).2.2).erase v)
        = (g, u)) := by
  constructor
  · intro fuel row col g u v hcol he hv
    obtain ⟨hnidx, hncol⟩ := Solve6.next_idx6 row col hcol
    have hres := Solve6.solve_grid_count_restore fuel
      (Solve6.get_next_position row col).1 (Solve6.get_next_position row col).2
      (Solve6.place g row col v) (insert v u) hncol (by rw [hnidx]; exact he.place6 v)
    rw [hres]
    simp only
    rw [Solve6.place_undo6 g row col v (he.getD_zero6 le_rfl), Finset.erase_insert hv]
  · intro fuel row col g u v hcol hc he hv hf
    obtain ⟨hnidx, hncol⟩ := Solve.next_idx1 row col hcol
    have hres := Solve.solve_grid_restore1 fuel
      (Solve.get_next_position row col).1 (Solve.get_next_position row col).2
      (Solve.place g row col v) (insert v u) hncol (by rw [hnidx]; exact he.place1 v) hf
    rw [hres]
    simp only
    rw [Solve.place_undo1 g row col v (he.getD_zero1 le_rfl hc), Finset.erase_insert hv]

/-- C1, witness for the amended theorem, instantiated at the initial states
of both solvers with value 7 placed at cell (0,0) / (0,1). -/
theorem c1_amended_witness :
    ((0 : Nat) < 5 ∧ Solve6.EmptyFrom Solve6.initGrid 0 ∧ (7 : Nat) ∉ (∅ : Finset Nat) ∧
      (Solve6.place ((Solve6.solve_grid_count 3 (Solve6.place Solve6.initGrid 0 0 7)
          (insert 7 ∅) (Solve6.get_next_position 0 0).1 (Solve6.get_next_position 0 0).2).2.1)
         0 0 0,
       ((Solve6.solve_grid_count 3 (Solve6.place Solve6.initGrid 0 0 7)
          (insert 7 ∅) (Solve6.get_next_position 0 0).1 (Solve6.get_next_position 0 0).2).2.2).erase 7)
        = (Solve6.initGrid, (∅ : Finset Nat))) ∧
    ((1 : Nat) < 5 ∧ (0 * 5 + 1 : Nat) ≠ 12 ∧ Solve.EmptyFrom Solve.initGrid 1 ∧
      (7 : Nat) ∉ Solve.initUsed ∧
      ((Solve.solve_grid 0 (Solve.place Solve.initGrid 0 1 7) (insert 7 Solve.initUsed)
          (Solve.get_next_position 0 1).1 (Solve.get_next_position 0 1).2).1 = false →
        (Solve.place ((Solve.solve_grid 0 (Solve.place Solve.initGrid 0 1 7)
            (insert 7 Solve.initUsed)
            (Solve.get_next_position 0 1).1 (Solve.get_next_position 0 1).2).2.1) 0 1 0,
         ((Solve.solve_grid 0 (Solve.place Solve.initGrid 0 1 7) (insert 7 Solve.initUsed)
            (Solve.get_next_position 0 1).1 (Solve.get_next_position 0 1).2).2.2).erase 7)
          = (Solve.initGrid, Solve.initUsed))) :=
  ⟨⟨by decide, by decide, by decide,
    c1_amended.1 3 0 0 Solve6.initGrid ∅ 7 (by decide) (by decide) (by decide)⟩,
   ⟨by decide, by decide, by decide, by decide,
    c1_amended.2 0 0 1 Solve.initGrid Solve.initUsed 7 (by decide) (by decide)
      (by decide) (by decide)⟩⟩

/-- C2: from any state satisfying the search invariant (in particular from
`main`'s initial state: center 13, used = {13}), a successful `solve_grid`
leaves a grid whose 25 cells hold pairwise distinct values of 1..25, each
value exactly once, and a used set equal to the set of assigned values. -/
theorem c2_uniqueness (fuel row col : Nat) (g : List Nat) (u : Finset Nat)
    (hcol : col < 5) (hinv : Solve.Inv g u (row * 5 + col)) :
    (Solve.solve_grid fuel g u row col).1 = true →
    Solve.Solved (Solve.solve_grid fuel g u row col).2.1
      (Solve.solve_grid fuel g u row col).2.2 :=
  Solve.solve_grid_success fuel row col g u hcol hinv

/-- C2, witness at `main`'s initial state. -/
theorem c2_uniqueness_witness :
    ((0 : Nat) < 5 ∧ Solve.Inv Solve.initGrid Solve.initUsed (0 * 5 + 0)) ∧
    ((Solve.solve_grid 26 Solve.initGrid Solve.initUsed 0 0).1 = true →
      Solve.Solved (Solve.solve_grid 26 Solve.initGrid Solve.initUsed 0 0).2.1
        (Solve.solve_grid 26 Solve.initGrid Solve.initUsed 0 0).2.2) :=
  ⟨⟨by decide, by decide⟩,
   c2_uniqueness 26 0 0 Solve.initGrid Solve.initUsed (by decide) (by decide)⟩

/-- C3: the optimized count-all solver (depth-2 forward check via
`forward_check_improved` / `has_valid_placement_fast`) returns exactly the
result of the same backtracking search with the pruning removed, on every
state of the search's shape (unassigned tail, values 1..25): the pruning
only cuts branches of count 0. -/
theorem c3_prune_equivalence (fuel row col : Nat) (g : List Nat) (u : Finset Nat)
    (hcol : col < 5) (he : Solve6.EmptyFrom g (row * 5 + col))
    (hu : Solve6.usedBound u) (hg : Solve6.gridBound g) :
    Solve6.solve_grid_count fuel g u row col =
      Solve6.solve_grid_count_noprune fuel g u row col :=
  Solve6.count_eq_noprune fuel row col g u hcol he hu hg

/-- C3, witness at `main`'s initial state (full fuel). -/
theorem c3_prune_equivalence_witness :
    ((0 : Nat) < 5 ∧ Solve6.EmptyFrom Solve6.initGrid (0 * 5 + 0) ∧
      Solve6.usedBound ∅ ∧ Solve6.gridBound Solve6.initGrid) ∧
    Solve6.solve_grid_count 26 Solve6.initGrid ∅ 0 0 =
      Solve6.solve_grid_count_noprune 26 Solve6.initGrid ∅ 0 0 :=
  ⟨⟨by decide, by decide, by decide, by decide⟩,
   c3_prune_equivalence 26 0 0 Solve6.initGrid ∅ (by decide) (by decide)
     (by decide) (by decide)⟩

/-- C4, counterexample: at `main`'s initial state the solver branches on
cell (0,0) (the first cell in row-major order), yet the unassigned cell
(1,2) has strictly fewer legal remaining values (22 against 24), so the
selected variable is not a minimum-remaining-values choice. -/
theorem c4_counterexample :
    Solve.cell Solve.initGrid 0 0 = 0 ∧ Solve.cell Solve.initGrid 1 2 = 0 ∧
    Solve.legalCount Solve.initGrid Solve.initUsed 1 2 <
      Solve.legalCount Solve.initGrid Solve.initUsed 0 0 := by
  decide

/-- C4, amended: the variable branched on is always the current cell of a
fixed ascending row-major scan — `get_next_position` advances the linear
index by exactly one, and at any non-terminal, non-center position
`solve_grid` branches over the values of the current cell (row, col),
independent of any domain sizes. -/
theorem c4_amended :
    (∀ row col, col < 5 →
      (Solve.get_next_position row col).1 * 5 + (Solve.get_next_position row col).2 =
        row * 5 + col + 1) ∧
    (∀ fuel row col g u, row < 5 → ¬(row = 2 ∧ col = 2) →
      Solve.solve_grid (fuel + 1) g u row col =
        Solve.tryValues
          (fun g2 u2 => Solve.solve_grid fuel g2 u2
            (Solve.get_next_position row col).1 (Solve.get_next_position row col).2)
          row col (List.range' 1 Solve.TOTAL_CELLS) g u) := by
  constructor
  · intro row col hcol
    exact (Solve.next_idx1 row col hcol).1
  · intro fuel row col g u hrow hcen
    rw [Solve.solve_grid, if_neg (by simp only [Solve.SIZE]; omega), if_neg hcen]

/-- C4, witness for the amended theorem at position (0,1). -/
theorem c4_amended_witness :
    ((1 : Nat) < 5 ∧
      (Solve.get_next_position 0 1).1 * 5 + (Solve.get_next_position 0 1).2 = 0 * 5 + 1 + 1) ∧
    ((0 : Nat) < 5 ∧ ¬((0 : Nat) = 2 ∧ (1 : Nat) = 2) ∧
      Solve.solve_grid 1 Solve.initGrid Solve.initUsed 0 1 =
        Solve.tryValues
          (fun g2 u2 => Solve.solve_grid 0 g2 u2
            (Solve.get_next_position 0 1).1 (Solve.get_next_position 0 1).2)
          0 1 (List.range' 1 Solve.TOTAL_CELLS) Solve.initGrid Solve.initUsed) :=
  ⟨⟨by decide, c4_amended.1 0 1 (by decide)⟩,
   ⟨by decide, by decide,
    c4_amended.2 0 0 1 Solve.initGrid Solve.initUsed (by decide) (by decide)⟩⟩

namespace Solve4

/-- Top row [10,11,12,13,14] (fully assigned), rest unassigned. -/
def cxGrid : List Nat := [10, 11, 12, 13, 14] ++ List.replicate 20 0

/-- Top row [1,2,14,20,25] (fully assigned, median 14), rest unassigned. -/
def wGrid : List Nat := [1, 2, 14, 20, 25] ++ List.replicate 20 0

end Solve4

/-- C5, counterexample: with the top row fully assigned to [10,11,12,13,14],
the claim's "N-th order statistic, 1-indexed" (N = 5, i.e. the maximum) is
exactly the target 14, yet `check_c4` returns false — it checks the 3rd
order statistic (`sorted_row[2]`), not the 5th. -/
theorem c5_counterexample :
    (∀ v ∈ Solve4.cxGrid.take 5, v ≠ 0) ∧
    Solve4.orderStat 5 (Solve4.cxGrid.take 5) = 14 ∧
    Solve4.check_c4 Solve4.cxGrid = false := by
  decide

/-- C5, amended: once the designated top row is fully assigned, `check_c4`
passes exactly when the median — the 3rd order statistic (⌈N/2⌉-th for
N = 5, 1-indexed) of the sorted row — equals the fixed target 14. -/
theorem c5_amended (g : List Nat) (h : ∀ v ∈ g.take 5, v ≠ 0) :
    Solve4.check_c4 g = true ↔ Solve4.orderStat 3 (g.take 5) = 14 := by
  simp only [Solve4.check_c4]
  have hany : ((g.take 5).any fun v => v == 0) = false := by
    by_contra hcon
    have h1 : ((g.take 5).any fun v => v == 0) = true := by
      simpa using hcon
    obtain ⟨x, hx, hx0⟩ := List.any_eq_true.1 h1
    exact h x hx (by simpa using hx0)
  rw [if_neg (by simp [hany])]
  rw [Solve4.orderStat]
  simp [beq_iff_eq]

/-- C5, witness for the amended theorem on a fully assigned top row with
median exactly 14. -/
theorem c5_amended_witness :
    (∀ v ∈ Solve4.wGrid.take 5, v ≠ 0) ∧
    (Solve4.check_c4 Solve4.wGrid = true ↔ Solve4.orderStat 3 (Solve4.wGrid.take 5) = 14) :=
  ⟨by decide, c5_amended Solve4.wGrid (by decide)⟩

namespace Solve5

/-- A 6×6 grid with the special value 12 at cell (0,1), otherwise empty. -/
def cxGrid : List Nat := (List.replicate 36 0).set 1 12

end Solve5

/-- C6: (i) `violates_c5` returns true exactly when the placed value is
special and another special value already occupies the same row or the same
column; (ii) the check is applied at each placement — a value whose
placement violates it is skipped by the value loop without recursing;
(iii) consequently every grid returned by a successful solve from a state
satisfying the invariant (in particular `main`'s initial state) has cell
(0,0) = 1 and no two of {1,12,24,36} share a row or a column. -/
theorem c6_rook :
    (∀ g row col v, Solve5.violates_c5 g row col v = true ↔
      (v ∈ Solve5.SPECIAL_NUMBERS ∧
        ((∃ c < 6, c ≠ col ∧ Solve5.cell g row c ≠ 0 ∧
            Solve5.cell g row c ∈ Solve5.SPECIAL_NUMBERS) ∨
         (∃ r < 6, r ≠ row ∧ Solve5.cell g r col ≠ 0 ∧
            Solve5.cell g r col ∈ Solve5.SPECIAL_NUMBERS)))) ∧
    (∀ (recur : List Nat → Finset Nat → Bool × List Nat × Finset Nat) row col v rest g u,
      Solve5.violates_c5 g row col v = true →
      Solve5.tryValues recur row col (v :: rest) g u =
        Solve5.tryValues recur row col rest g u) ∧
    (∀ fuel row col g u, col < 6 → Solve5.Inv g u (row * 6 + col) →
      (Solve5.solve_grid fuel g u row col).1 = true →
      (Solve5.solve_grid fuel g u row col).2.1.getD 0 0 = 1 ∧
        Solve5.rookOK (Solve5.solve_grid fuel g u row col).2.1) := by
  refine ⟨?_, ?_, ?_⟩
  · intro g row col v
    constructor
    · intro h
      rw [Solve5.violates_c5] at h
      by_cases hv : v ∈ Solve5.SPECIAL_NUMBERS
      · rw [if_neg (not_not_intro hv)] at h
        refine ⟨hv, ?_⟩
        by_cases h1 : ((List.range 6).any fun c =>
            decide (c ≠ col) && decide (Solve5.cell g row c ≠ 0) &&
              decide (Solve5.cell g row c ∈ Solve5.SPECIAL_NUMBERS)) = true
        · obtain ⟨c, hc, hp⟩ := List.any_eq_true.1 h1
          simp only [Bool.and_eq_true, decide_eq_true_eq] at hp
          exact Or.inl ⟨c, List.mem_range.1 hc, hp.1.1, hp.1.2, hp.2⟩
        · rw [if_neg h1] at h
          by_cases h2 : ((List.range 6).any fun r =>
              decide (r ≠ row) && decide (Solve5.cell g r col ≠ 0) &&
                decide (Solve5.cell g r col ∈ Solve5.SPECIAL_NUMBERS)) = true
          · obtain ⟨r, hr, hp⟩ := List.any_eq_true.1 h2
            simp only [Bool.and_eq_true, decide_eq_true_eq] at hp
            exact Or.inr ⟨r, List.mem_range.1 hr, hp.1.1, hp.1.2, hp.2⟩
          · rw [if_neg h2] at h
            exact absurd h (by simp)
      · rw [if_pos hv] at h
        exact absurd h (by simp)
    · rintro ⟨hv, hcase⟩
      rw [Solve5.violates_c5, if_neg (not_not_intro hv)]
      rcases hcase with ⟨c, hc, hcc, hnz, hmem⟩ | ⟨r, hr, hrr, hnz, hmem⟩
      · rw [if_pos (List.any_eq_true.2
          ⟨c, List.mem_range.2 hc, by simp [hcc, hnz, hmem]⟩)]
      · by_cases h1 : ((List.range 6).any fun c =>
            decide (c ≠ col) && decide (Solve5.cell g row c ≠ 0) &&
              decide (Solve5.cell g row c ∈ Solve5.SPECIAL_NUMBERS)) = true
        · rw [if_pos h1]
        · rw [if_neg h1, if_pos (List.any_eq_true.2
            ⟨r, List.mem_range.2 hr, by simp [hrr, hnz, hmem]⟩)]
  · intro recur row col v rest g u hviol
    by_cases hv : v ∈ u
    · rw [Solve5.tryValues, if_pos hv]
    · have hnvalid : ¬ (Solve5.is_valid_placement g row col v = true) := by
        rw [Solve5.is_valid_placement]
        by_cases h1 : Solve5.violates_c1 g row col v = true
        · rw [if_pos h1]; simp
        · rw [if_neg h1, if_pos hviol]; simp
      rw [Solve5.tryValues, if_neg hv, if_pos hnvalid]
  · intro fuel row col g u hcol hinv hf
    exact Solve5.solve_grid_ok fuel row col g u hcol hinv hf

/-- C6, witness: the characterization at a concrete violating placement, the
skip behavior there, and the postcondition instantiated at `main`'s initial
state. -/
theorem c6_rook_witness :
    (Solve5.violates_c5 Solve5.cxGrid 0 2 24 = true ↔
      ((24 : Nat) ∈ Solve5.SPECIAL_NUMBERS ∧
        ((∃ c < 6, c ≠ 2 ∧ Solve5.cell Solve5.cxGrid 0 c ≠ 0 ∧
            Solve5.cell Solve5.cxGrid 0 c ∈ Solve5.SPECIAL_NUMBERS) ∨
         (∃ r < 6, r ≠ 0 ∧ Solve5.cell Solve5.cxGrid r 2 ≠ 0 ∧
            Solve5.cell Solve5.cxGrid r 2 ∈ Solve5.SPECIAL_NUMBERS)))) ∧
    (Solve5.violates_c5 Solve5.cxGrid 0 2 24 = true ∧
      Solve5.tryValues (fun g u => (false, g, u)) 0 2 [24] Solve5.cxGrid ∅ =
        Solve5.tryValues (fun g u => (false, g, u)) 0 2 [] Solve5.cxGrid ∅) ∧
    ((0 : Nat) < 6 ∧ Solve5.Inv Solve5.initGrid Solve5.initUsed (0 * 6 + 0) ∧
      ((Solve5.solve_grid 37 Solve5.initGrid Solve5.initUsed 0 0).1 = true →
        (Solve5.solve_grid 37 Solve5.initGrid Solve5.initUsed 0 0).2.1.getD 0 0 = 1 ∧
          Solve5.rookOK (Solve5.solve_grid 37 Solve5.initGrid Solve5.initUsed 0 0).2.1)) :=
  ⟨c6_rook.1 Solve5.cxGrid 0 2 24,
   ⟨by decide, c6_rook.2.1 (fun g u => (false, g, u)) 0 2 24 [] Solve5.cxGrid ∅ (by decide)⟩,
   ⟨by decide, by decide,
    c6_rook.2.2 37 0 0 Solve5.initGrid Solve5.initUsed (by decide) (by decide)⟩⟩

/-- C7: neighbor symmetry — for all cells A, B of the 5×5 grid, A appears in
B's neighbor list iff B appears in A's, for both the orthogonal and the
diagonal neighbor functions. -/
theorem c7_neighbor_symmetry :
    ∀ a b : Fin 5 × Fin 5,
      ((((a.1 : Nat) : Int), ((a.2 : Nat) : Int)) ∈
          Solve.get_orthogonal_neighbors ((b.1 : Nat) : Int) ((b.2 : Nat) : Int) ↔
        (((b.1 : Nat) : Int), ((b.2 : Nat) : Int)) ∈
          Solve.get_orthogonal_neighbors ((a.1 : Nat) : Int) ((a.2 : Nat) : Int)) ∧
      ((((a.1 : Nat) : Int), ((a.2 : Nat) : Int)) ∈
          Solve.get_diagonal_neighbors ((b.1 : Nat) : Int) ((b.2 : Nat) : Int) ↔
        (((b.1 : Nat) : Int), ((b.2 : Nat) : Int)) ∈
          Solve.get_diagonal_neighbors ((a.1 : Nat) : Int) ((a.2 : Nat) : Int)) := by
  decide

/-- C8: the search terminates (the fuel-indexed embedding is stable once the
fuel covers the 26 / 26 recursion depth of a full 5×5 solve), exhaustion of
the value loop yields the ordinary value `false` with the state unchanged,
`main` of `solve_grid.py` maps a found solution to exit status 0 and a
failed search to 1, and `main` of `6_solve_grid.py` always exits 0 with the
computed count. -/
theorem c8_negative_results_are_values :
    (∀ fuel, 26 ≤ fuel →
      Solve.solve_grid fuel Solve.initGrid Solve.initUsed 0 0 =
        Solve.solve_grid 26 Solve.initGrid Solve.initUsed 0 0) ∧
    (∀ fuel, Solve.mainExit fuel =
      if (Solve.solve_grid fuel Solve.initGrid Solve.initUsed 0 0).1 then 0 else 1) ∧
    (∀ (recur : List Nat → Finset Nat → Bool × List Nat × Finset Nat) row col g u,
      Solve.tryValues recur row col [] g u = (false, g, u)) ∧
    (∀ fuel, 26 ≤ fuel →
      Solve6.solve_grid_count fuel Solve6.initGrid ∅ 0 0 =
        Solve6.solve_grid_count 26 Solve6.initGrid ∅ 0 0) ∧
    (∀ fuel, Solve6.mainExit fuel = 0) := by
  refine ⟨?_, ?_, ?_, ?_, ?_⟩
  · intro fuel hfuel
    exact (Solve.solve_grid_fuel_stable 26 fuel 0 0 Solve.initGrid Solve.initUsed
      (by omega) (by omega) hfuel).symm
  · intro fuel; rfl
  · intro recur row col g u; rfl
  · intro fuel hfuel
    exact (Solve6.solve_grid_count_fuel_stable 26 fuel 0 0 Solve6.initGrid ∅
      (by omega) (by omega) hfuel).symm
  · intro fuel; rfl

/-- C8, witness at fuel 27. -/
theorem c8_negative_results_witness :
    ((26 : Nat) ≤ 27 ∧
      Solve.solve_grid 27 Solve.initGrid Solve.initUsed 0 0 =
        Solve.solve_grid 26 Solve.initGrid Solve.initUsed 0 0) ∧
    Solve.mainExit 27 =
      (if (Solve.solve_grid 27 Solve.initGrid Solve.initUsed 0 0).1 then 0 else 1) ∧
    Solve.tryValues (fun g u => (false, g, u)) 0 1 [] Solve.initGrid Solve.initUsed =
      (false, Solve.initGrid, Solve.initUsed) ∧
    Solve6.solve_grid_count 27 Solve6.initGrid ∅ 0 0 =
      Solve6.solve_grid_count 26 Solve6.initGrid ∅ 0 0 ∧
    Solve6.mainExit 27 = 0 :=
  ⟨⟨by decide, c8_negative_results_are_values.1 27 (by decide)⟩,
   c8_negative_results_are_values.2.1 27,
   c8_negative_results_are_values.2.2.1 (fun g u => (false, g, u)) 0 1
     Solve.initGrid Solve.initUsed,
   c8_negative_results_are_values.2.2.2.1 27 (by decide),
   c8_negative_results_are_values.2.2.2.2 27⟩

/-- C9: a grid with a required input cell still unassigned never fails the
global predicates — `check_c3` passes whenever some prime-position cell
holds 0, and `check_c4` passes whenever some top-row cell holds 0 (the
"undetermined" outcome is conflated with "pass"). -/
theorem c9_undetermined_passes :
    (∀ g rc, rc ∈ Solve.PRIME_POSITIONS → Solve.cell g rc.1 rc.2 = 0 →
      Solve.check_c3 g = true) ∧
    (∀ g : List Nat, 0 ∈ g.take 5 → Solve4.check_c4 g = true) := by
  constructor
  · intro g rc hrc hcell
    rw [Solve.check_c3]
    rw [if_pos (List.any_eq_true.2 ⟨rc, hrc, by simp [hcell]⟩)]
  · intro g h0
    simp only [Solve4.check_c4]
    rw [if_pos (List.any_eq_true.2 ⟨0, h0, by simp⟩)]

/-- C9, witness on the all-zero grid. -/
theorem c9_undetermined_witness :
    ((0, 1) ∈ Solve.PRIME_POSITIONS ∧ Solve.cell (List.replicate 25 0) 0 1 = 0 ∧
      Solve.check_c3 (List.replicate 25 0) = true) ∧
    ((0 : Nat) ∈ (List.replicate 25 0).take 5 ∧
      Solve4.check_c4 (List.replicate 25 0) = true) :=
  ⟨⟨by decide, by decide,
    c9_undetermined_passes.1 (List.replicate 25 0) (0, 1) (by decide) (by decide)⟩,
   ⟨by decide, c9_undetermined_passes.2 (List.replicate 25 0) (by decide)⟩⟩

/-- C10: atomicity of negative and counting returns — a `solve_grid` call of
`solve_grid.py` or `5_solve_grid.py` that returns False leaves the grid and
used set exactly as at entry, and every `solve_grid_count` call of
`6_solve_grid.py` leaves them exactly as at entry whatever count it
returns. -/
theorem c10_atomic_state :
    (∀ fuel row col g u, col < 5 → Solve.EmptyFrom g (row * 5 + col) →
      (Solve.solve_grid fuel g u row col).1 = false →
      (Solve.solve_grid fuel g u row col).2 = (g, u)) ∧
    (∀ fuel row col g u, col < 6 → Solve5.EmptyFrom g (row * 6 + col) →
      (Solve5.solve_grid fuel g u row col).1 = false →
      (Solve5.solve_grid fuel g u row col).2 = (g, u)) ∧
    (∀ fuel row col g u, col < 5 → Solve6.EmptyFrom g (row * 5 + col) →
      (Solve6.solve_grid_count fuel g u row col).2 = (g, u)) :=
  ⟨Solve.solve_grid_restore1, Solve5.solve_grid_restore5, Solve6.solve_grid_count_restore⟩

/-- C10, witness at the three initial states (fuel 0 reports failure). -/
theorem c10_atomic_state_witness :
    ((0 : Nat) < 5 ∧ Solve.EmptyFrom Solve.initGrid (0 * 5 + 0) ∧
      ((Solve.solve_grid 0 Solve.initGrid Solve.initUsed 0 0).1 = false →
        (Solve.solve_grid 0 Solve.initGrid Solve.initUsed 0 0).2 =
          (Solve.initGrid, Solve.initUsed))) ∧
    ((0 : Nat) < 6 ∧ Solve5.EmptyFrom Solve5.initGrid (0 * 6 + 0) ∧
      ((Solve5.solve_grid 0 Solve5.initGrid Solve5.initUsed 0 0).1 = false →
        (Solve5.solve_grid 0 Solve5.initGrid Solve5.initUsed 0 0).2 =
          (Solve5.initGrid, Solve5.initUsed))) ∧
    ((0 : Nat) < 5 ∧ Solve6.EmptyFrom Solve6.initGrid (0 * 5 + 0) ∧
      (Solve6.solve_grid_count 2 Solve6.initGrid ∅ 0 0).2 = (Solve6.initGrid, ∅)) :=
  ⟨⟨by decide, by decide, c10_atomic_state.1 0 0 0 Solve.initGrid Solve.initUsed
      (by decide) (by decide)⟩,
   ⟨by decide, by decide, c10_atomic_state.2.1 0 0 0 Solve5.initGrid Solve5.initUsed
      (by decide) (by decide)⟩,
   ⟨by decide, by decide, c10_atomic_state.2.2 2 0 0 Solve6.initGrid ∅
      (by decide) (by decide)⟩⟩
